import Mathlib

/-!
Verification development for the VPC flow-log decorator pipeline
(`src/decorator/index.js` and `src/decorator/geocode.js`).

The JavaScript source is shallowly embedded:

* The regular expression `parser` (index.js line 43) is embedded by a small
  backtracking matcher (`runPat`) over an item language covering exactly the
  constructs the pattern uses: character literals, single-character classes,
  greedy bounded repetition of a character class, and alternation of literal
  strings.  Candidate order follows JavaScript semantics: greedy repetitions
  try the longest repetition first, alternations are tried left to right, and
  the overall result is the first success of the depth-first search anchored
  at the start of the string (the pattern starts with `^` and has no `m`
  flag, so position 0 is the only start position).
* JavaScript numbers produced by `Number(...)` on decimal digit strings are
  modelled by `jsNumberOfDigits`: exact below `2^53`, rounded to the nearest
  representable IEEE-754 double (ties to even) above.  (Values at or above
  `2^1024`, which JavaScript turns into `Infinity`, do not occur in any
  statement below.)
* `Buffer.from(data, 'base64').toString('utf8')` is modelled by
  `decodeBase64Utf8`: non-alphabet characters are ignored as Node does, and
  invalid UTF-8 bytes decode to U+FFFD.
* Asynchronous provider calls are modelled by passing the provider response
  as a value; promise rejection and thrown `TypeError`s are modelled with
  `Except`.
-/

/-! ## JavaScript `Number` on decimal digit strings -/

/-- Numeric value of a decimal digit string, as read left to right. -/
def digitsToNat (l : List Char) : Nat :=
  l.foldl (fun n c => 10 * n + (c.toNat - '0'.toNat)) 0

/-- Floor of the base-2 logarithm, by structural recursion on a fuel
argument (`Nat.log2` itself is defined by well-founded recursion, which
does not reduce definitionally). -/
def floorLog2Aux : Nat → Nat → Nat
  | 0, _ => 0
  | fuel + 1, n => if n ≤ 1 then 0 else floorLog2Aux fuel (n / 2) + 1

/-- Floor of the base-2 logarithm. -/
def floorLog2 (n : Nat) : Nat :=
  floorLog2Aux n n

/-- Round a natural number to the nearest IEEE-754 double (ties to even).
Naturals below `2^53` are exactly representable and unchanged. -/
def roundFloat64 (n : Nat) : Nat :=
  if n < 2 ^ 53 then n
  else
    let e := floorLog2 n - 52
    let q := n / 2 ^ e
    let r := n % 2 ^ e
    let h := 2 ^ (e - 1)
    let q' := if h < r || (r == h && q % 2 == 1) then q + 1 else q
    q' * 2 ^ e

/-- JavaScript `Number(s)` for a string of decimal digits. -/
def jsNumberOfDigits (l : List Char) : Nat :=
  roundFloat64 (digitsToNat l)

/-! ## Transport decoding: `Buffer.from(data, 'base64').toString('utf8')` -/

/-- Index of a character in the standard base64 alphabet; `none` for
characters outside the alphabet (Node ignores them, including padding). -/
def b64Index (c : Char) : Option Nat :=
  if 'A' ≤ c && c ≤ 'Z' then some (c.toNat - 'A'.toNat)
  else if 'a' ≤ c && c ≤ 'z' then some (c.toNat - 'a'.toNat + 26)
  else if '0' ≤ c && c ≤ '9' then some (c.toNat - '0'.toNat + 52)
  else if c = '+' then some 62
  else if c = '/' then some 63
  else none

/-- Decode a list of 6-bit groups into bytes (groups of four sextets give
three bytes; a trailing pair or triple gives one or two bytes). -/
def b64Groups : List Nat → List Nat
  | a :: b :: c :: d :: rest =>
      (a * 4 + b / 16) :: (b % 16 * 16 + c / 4) :: (c % 4 * 64 + d) ::
        b64Groups rest
  | [a, b] => [a * 4 + b / 16]
  | [a, b, c] => [a * 4 + b / 16, b % 16 * 16 + c / 4]
  | _ => []

/-- Base64 decoding of a string to a byte list, Node style: characters
outside the alphabet are skipped. -/
def base64Decode (s : String) : List Nat :=
  b64Groups (s.toList.filterMap b64Index)

/-- Whether a byte is a UTF-8 continuation byte. -/
def isCont (b : Nat) : Bool := 128 ≤ b && b < 192

/-- Decode a UTF-8 byte list to characters, substituting U+FFFD for
invalid sequences as Node's `toString('utf8')` does.  The first argument
is fuel (each step consumes at least one byte, so `l.length` suffices);
fuel makes the recursion structural so that terms reduce definitionally. -/
def utf8DecodeAux : Nat → List Nat → List Char
  | 0, _ => []
  | _ + 1, [] => []
  | fuel + 1, b :: rest =>
    if b < 128 then
      Char.ofNat b :: utf8DecodeAux fuel rest
    else if 194 ≤ b && b < 224 then
      match rest with
      | b2 :: rest2 =>
        if isCont b2 then
          Char.ofNat ((b - 192) * 64 + (b2 - 128)) ::
            utf8DecodeAux fuel rest2
        else '�' :: utf8DecodeAux fuel rest
      | [] => ['�']
    else if 224 ≤ b && b < 240 then
      match rest with
      | b2 :: b3 :: rest3 =>
        if isCont b2 && isCont b3 then
          let n := (b - 224) * 4096 + (b2 - 128) * 64 + (b3 - 128)
          (if 55296 ≤ n && n < 57344 then '�' else Char.ofNat n) ::
            utf8DecodeAux fuel rest3
        else '�' :: utf8DecodeAux fuel rest
      | _ => ['�']
    else if 240 ≤ b && b < 245 then
      match rest with
      | b2 :: b3 :: b4 :: rest4 =>
        if isCont b2 && isCont b3 && isCont b4 then
          let n := (b - 240) * 262144 + (b2 - 128) * 4096 +
            (b3 - 128) * 64 + (b4 - 128)
          (if n < 1114112 then Char.ofNat n else '�') ::
            utf8DecodeAux fuel rest4
        else '�' :: utf8DecodeAux fuel rest
      | _ => ['�']
    else '�' :: utf8DecodeAux fuel rest

/-- Decode a UTF-8 byte list to characters. -/
def utf8DecodeList (l : List Nat) : List Char :=
  utf8DecodeAux l.length l

/-- The decoded text line of a transport payload:
`Buffer.from(data, 'base64').toString('utf8')` (index.js line 106). -/
def decodeBase64Utf8 (s : String) : String :=
  String.mk (utf8DecodeList (base64Decode s))

/-! ## A backtracking matcher for the flow-log regular expression -/

/-- One atomic piece of the regular expression: a literal character, a
single-character class, a greedy repetition `{lo,hi}` of a character class
(`hi = none` meaning unbounded, as in `+`), or an alternation of literal
strings. -/
inductive RItem where
  | lit (c : Char)
  | cls (p : Char → Bool)
  | rep (p : Char → Bool) (lo : Nat) (hi : Option Nat)
  | alt (alts : List (List Char))

/-- Length of the maximal prefix of `s` whose characters satisfy `p`. -/
def maxRun (p : Char → Bool) (s : List Char) : Nat :=
  (s.takeWhile p).length

/-- Candidate lengths for a greedy repetition, longest first (JavaScript
greedy quantifier order). -/
def repCands (p : Char → Bool) (lo : Nat) (hi : Option Nat)
    (s : List Char) : List Nat :=
  let m := match hi with
    | none => maxRun p s
    | some h => min h (maxRun p s)
  if m < lo then [] else (List.range (m - lo + 1)).map (fun j => m - j)

/-- All ways one item can match a prefix of `s`, returning the remaining
suffixes in the order a JavaScript backtracking engine would try them. -/
def itemMatches : RItem → List Char → List (List Char)
  | .lit _, [] => []
  | .lit c, x :: xs => if x = c then [xs] else []
  | .cls _, [] => []
  | .cls p, x :: xs => if p x then [xs] else []
  | .rep p lo hi, s => (repCands p lo hi s).map (fun k => s.drop k)
  | .alt as, s =>
      as.filterMap (fun a =>
        if a.isPrefixOf s then some (s.drop a.length) else none)

/-- All ways a sequence of items can match a prefix of `s`, depth first. -/
def matchSeq : List RItem → List Char → List (List Char)
  | [], s => [s]
  | i :: is, s => (itemMatches i s).flatMap (matchSeq is)

/-- A token of the overall pattern: a bare item or a capturing group. -/
inductive RTok where
  | item (i : RItem)
  | group (g : List RItem)

/-- All matches of a pattern against a prefix of `s`, in backtracking
order; each result carries the list of captured substrings and the
remaining suffix.  The head of this list is the match JavaScript's
`exec` returns. -/
def runPat : List RTok → List Char → List (List (List Char) × List Char)
  | [], s => [([], s)]
  | .item i :: ps, s => (itemMatches i s).flatMap (fun s2 => runPat ps s2)
  | .group g :: ps, s =>
      (matchSeq g s).flatMap (fun s2 =>
        (runPat ps s2).map (fun cr =>
          (s.take (s.length - s2.length) :: cr.1, cr.2)))

/-- JavaScript `\d`. -/
def jsDigit (c : Char) : Bool := '0' ≤ c && c ≤ '9'

/-- JavaScript `\w`: ASCII letters, digits and underscore. -/
def jsWord (c : Char) : Bool :=
  ('a' ≤ c && c ≤ 'z') || ('A' ≤ c && c ≤ 'Z') || jsDigit c || c = '_'

/-- JavaScript `.` without the `s` flag: anything but a line terminator. -/
def jsAnyChar (c : Char) : Bool :=
  !(c == '\n' || c == '\r' || c.toNat == 8232 || c.toNat == 8233)

/-- The items of the address group `(\d{1,3}.\d{1,3}.\d{1,3}.\d{1,3})` —
note the unescaped dots, which match any (non line-terminator) character. -/
def ipItems : List RItem :=
  [.rep jsDigit 1 (some 3), .cls jsAnyChar,
   .rep jsDigit 1 (some 3), .cls jsAnyChar,
   .rep jsDigit 1 (some 3), .cls jsAnyChar,
   .rep jsDigit 1 (some 3)]

/-- The flow-log pattern (index.js line 43):
`^(\d) (\d+) (eni-\w+) (\d{1,3}.\d{1,3}.\d{1,3}.\d{1,3}) (\d{1,3}.\d{1,3}.\d{1,3}.\d{1,3}) (\d+) (\d+) (\d+) (\d+) (\d+) (\d+) (\d+) (ACCEPT|REJECT) (OK|NODATA|SKIPDATA)` -/
def parser : List RTok :=
  [.group [.cls jsDigit], .item (.lit ' '),
   .group [.rep jsDigit 1 none], .item (.lit ' '),
   .group [.lit 'e', .lit 'n', .lit 'i', .lit '-', .rep jsWord 1 none],
   .item (.lit ' '),
   .group ipItems, .item (.lit ' '),
   .group ipItems, .item (.lit ' '),
   .group [.rep jsDigit 1 none], .item (.lit ' '),
   .group [.rep jsDigit 1 none], .item (.lit ' '),
   .group [.rep jsDigit 1 none], .item (.lit ' '),
   .group [.rep jsDigit 1 none], .item (.lit ' '),
   .group [.rep jsDigit 1 none], .item (.lit ' '),
   .group [.rep jsDigit 1 none], .item (.lit ' '),
   .group [.rep jsDigit 1 none], .item (.lit ' '),
   .group [.alt ["ACCEPT".toList, "REJECT".toList]], .item (.lit ' '),
   .group [.alt ["OK".toList, "NODATA".toList, "SKIPDATA".toList]]]

/-- `parser.exec(line)`: the captured groups of the first match, if any. -/
def parserExec (line : String) : Option (List String) :=
  (runPat parser line.toList).head?.map (fun cr => cr.1.map String.mk)

/-- Whether `parser.exec(line)` matches at all. -/
def parserAccepts (line : String) : Bool :=
  !(runPat parser line.toList).isEmpty

/-! ## Record extraction (`extractRecords`, index.js lines 103-143) -/

/-- One record as delivered by Kinesis Firehose to the handler. -/
structure FirehoseRecord where
  recordId : String
  data : String
deriving Repr, DecidableEq

/-- The structured flow-log object built from a successful parse
(index.js lines 109-126).  The enrichment fields added later by
`decorateRecords` are modelled as `Option`s / defaulted fields: in
JavaScript they are absent until the decoration step assigns them. -/
structure FlowData where
  timestamp : Nat
  version : Nat
  accountId : Nat
  interfaceId : String
  srcaddr : String
  destaddr : String
  srcport : Nat
  dstport : Nat
  protocol : Nat
  packets : Nat
  bytes : Nat
  windowStart : Nat
  windowEnd : Nat
  action : String
  logStatus : String
  securityGroupIds : Option (List String) := none
  direction : Option String := none
  sourceCountryCode : String := ""
  sourceCountryName : String := ""
  sourceRegionCode : String := ""
  sourceRegionName : String := ""
  sourceCity : String := ""
  sourceLocationLat : Rat := 0
  sourceLocationLon : Rat := 0
deriving Repr, DecidableEq

/-- The `data` field of an extracted record: a structured object on a
parse hit, the original (still base64-encoded) payload string on a miss. -/
inductive RecordData where
  | parsed (d : FlowData)
  | raw (s : String)
deriving Repr, DecidableEq

/-- An extracted record: `{ id, data, error }` (index.js lines 128-139). -/
structure ExtractedRecord where
  id : String
  data : RecordData
  error : Bool
deriving Repr, DecidableEq

/-- Build the flow-log object from the 14 captured groups
(index.js lines 109-126); `now` models `new Date()`. -/
def flowOfCaptures (now : Nat) (v acct eni srcIp dstIp p1 p2 pr pk bt st en
    act ls : String) : FlowData :=
  { timestamp := now
    version := jsNumberOfDigits v.toList
    accountId := jsNumberOfDigits acct.toList
    interfaceId := eni
    srcaddr := srcIp
    destaddr := dstIp
    srcport := jsNumberOfDigits p1.toList
    dstport := jsNumberOfDigits p2.toList
    protocol := jsNumberOfDigits pr.toList
    packets := jsNumberOfDigits pk.toList
    bytes := jsNumberOfDigits bt.toList
    windowStart := jsNumberOfDigits st.toList
    windowEnd := jsNumberOfDigits en.toList
    action := act
    logStatus := ls }

/-- `extractRecords` (index.js lines 103-143): decode each payload, run the
flow-log pattern, and wrap the result, flagging parse failures with
`error := true` and the original payload carried unchanged.  This function
is total: malformed input yields an error-flagged entry, never a throw. -/
def extractRecords (now : Nat) (records : List FirehoseRecord) :
    List ExtractedRecord :=
  records.map (fun record =>
    match parserExec (decodeBase64Utf8 record.data) with
    | some [v, acct, eni, srcIp, dstIp, p1, p2, pr, pk, bt, st, en, act, ls] =>
        { id := record.recordId
          data := .parsed
            (flowOfCaptures now v acct eni srcIp dstIp p1 p2 pr pk bt st en
              act ls)
          error := false }
    | _ =>
        { id := record.recordId
          data := .raw record.data
          error := true })

/-! ## `isRfc1918Address` (index.js lines 149-153) -/

/-- The regular expression
`(^127\.)|(^10\.)|(^172\.1[6-9]\.)|(^172\.2[0-9]\.)|(^172\.3[0-1]\.)|(^192\.168\.)`
as an ordered prefix test on the character list. -/
def rfc1918Check : List Char → Bool
  | '1' :: '2' :: '7' :: '.' :: _ => true
  | '1' :: '0' :: '.' :: _ => true
  | '1' :: '7' :: '2' :: '.' :: '1' :: d :: '.' :: _ =>
      '6' ≤ d && d ≤ '9'
  | '1' :: '7' :: '2' :: '.' :: '2' :: d :: '.' :: _ =>
      '0' ≤ d && d ≤ '9'
  | '1' :: '7' :: '2' :: '.' :: '3' :: d :: '.' :: _ =>
      d == '0' || d == '1'
  | '1' :: '9' :: '2' :: '.' :: '1' :: '6' :: '8' :: '.' :: _ => true
  | _ => false

/-- `isRfc1918Address` (index.js lines 149-153). -/
def isRfc1918Address (ipAddress : String) : Bool :=
  rfc1918Check ipAddress.toList

/-! ## Geocoding (`geocode.js`) -/

/-- The JSON body the geocoding service returns on success
(`resolve(json)` in geocode.js). -/
structure GeoData where
  country_code : String
  country_name : String
  region_code : String
  region_name : String
  city : String
  latitude : Rat
  longitude : Rat
deriving Repr, DecidableEq

/-- Outcome of the HTTP request to the geocoding service: a response with a
status code and a body (`none` models a body that is not valid JSON), or a
transport-level error (the `'error'` event). -/
inductive GeoResponse where
  | http (statusCode : Nat) (body : Option GeoData)
  | netError
deriving Repr, DecidableEq

/-- Errors with which the promises of the pipeline reject, and the
`TypeError` raised in strict mode by `decorateRecords` when it assigns
properties on a parse-failure record whose `data` is a string. -/
inductive GeoError where
  | badStatus (code : Nat)
  | jsonError
  | network
deriving Repr, DecidableEq

/-- `geocode.js` (module.exports, lines 29-74): a 403 resolves `null`
(rate limit, warning logged); any other non-200 status rejects; a 200
resolves the parsed JSON body or rejects if parsing fails. -/
def geocode (res : GeoResponse) : Except GeoError (Option GeoData) :=
  match res with
  | .netError => .error .network
  | .http statusCode body =>
      if statusCode == 403 then .ok none
      else if statusCode != 200 then .error (.badStatus statusCode)
      else match body with
        | some json => .ok (some json)
        | none => .error .jsonError

/-! ## ENI directory (`buildEniToSecurityGroupMapping`, index.js 82-93) -/

/-- A security group attachment in the EC2 `describeNetworkInterfaces`
response. -/
structure EniGroup where
  GroupId : String
deriving Repr, DecidableEq

/-- A private address entry of a network interface. -/
structure EniPrivateIp where
  Primary : Bool
  PrivateIpAddress : String
deriving Repr, DecidableEq

/-- One network interface of the `describeNetworkInterfaces` response. -/
structure NetworkInterface where
  NetworkInterfaceId : String
  Groups : List EniGroup
  PrivateIpAddresses : List EniPrivateIp
deriving Repr, DecidableEq

/-- One entry of the ENI directory.  Note that the jmespath projection
`PrivateIpAddresses[?Primary].PrivateIpAddress` yields a *list* of the
primary private addresses, not a single string. -/
structure EniMapping where
  interfaceId : String
  securityGroupIds : List String
  ipAddress : List String
deriving Repr, DecidableEq

/-- `buildEniToSecurityGroupMapping` (index.js lines 82-93) applied to the
interface listing returned by the provider: the jmespath projection
`NetworkInterfaces[].{interfaceId, securityGroupIds: Groups[].GroupId,
ipAddress: PrivateIpAddresses[?Primary].PrivateIpAddress}`. -/
def buildEniToSecurityGroupMapping (interfaces : List NetworkInterface) :
    List EniMapping :=
  interfaces.map (fun ni =>
    { interfaceId := ni.NetworkInterfaceId
      securityGroupIds := ni.Groups.map (fun g => g.GroupId)
      ipAddress :=
        (ni.PrivateIpAddresses.filter (fun p => p.Primary)).map
          (fun p => p.PrivateIpAddress) })

/-! ## Decoration (`decorateRecords`, index.js lines 163-197) -/

/-- Errors that make the handler's promise chain reject: a failure of the
interface-enumeration provider, a rejected geocode call, or the strict-mode
`TypeError` thrown by `decorateRecords` on parse-failure records. -/
inductive JsError where
  | providerError
  | typeError
  | geo (e : GeoError)
deriving Repr, DecidableEq

/-- JavaScript loose equality between a string and an array of strings
(`record.data['destaddr'] == eniData.ipAddress`, index.js line 170): the
array is coerced to a string by joining its elements with commas. -/
def jsEqStrArray (s : String) (a : List String) : Bool :=
  s == String.intercalate "," a

/-- The ENI-enrichment half of the per-record decoration loop body
(index.js lines 166-173): look up the record's interface id in the mapping
(`lodash.find` returns the first match); on a hit attach the security group
ids and the direction, on a miss leave both absent (a diagnostic is
logged). -/
def enrichEni (mapping : List EniMapping) (d : FlowData) : FlowData :=
  match mapping.find? (fun m => m.interfaceId == d.interfaceId) with
  | some eniData =>
      { d with
        securityGroupIds := some eniData.securityGroupIds
        direction :=
          some (if jsEqStrArray d.destaddr eniData.ipAddress
            then "inbound" else "outbound") }
  | none => d

/-- The geolocation step of the loop body (index.js lines 175-177):
`process.env.GEOLOCATION_ENABLED === 'false' || isRfc1918Address(srcaddr)
? null : await geocode(srcaddr)`.  The second component records which
addresses were sent to the external geocode service (empty when the call
is skipped). -/
def resolveGeo (geoDisabled : Bool) (oracle : String → GeoResponse)
    (srcaddr : String) : Except GeoError (Option GeoData × List String) :=
  if geoDisabled || isRfc1918Address srcaddr then .ok (none, [])
  else match geocode (oracle srcaddr) with
    | .error e => .error e
    | .ok geo => .ok (geo, [srcaddr])

/-- Appending the geo data to the record (index.js lines 182-190): every
geo field is assigned, from the geo result or as the empty default. -/
def applyGeo (geo : Option GeoData) (d : FlowData) : FlowData :=
  { d with
    sourceCountryCode := match geo with | some g => g.country_code | none => ""
    sourceCountryName := match geo with | some g => g.country_name | none => ""
    sourceRegionCode := match geo with | some g => g.region_code | none => ""
    sourceRegionName := match geo with | some g => g.region_name | none => ""
    sourceCity := match geo with | some g => g.city | none => ""
    sourceLocationLat := match geo with | some g => g.latitude | none => 0
    sourceLocationLon := match geo with | some g => g.longitude | none => 0 }

/-- One iteration of the decoration loop (index.js lines 166-192).

For a parse-failure record, `record.data` is a plain string: with
geolocation enabled the loop evaluates `isRfc1918Address(undefined)`,
which throws `TypeError` (`undefined.match`); with geolocation disabled it
reaches `record.data['source-country-code'] = ''`, and assigning a
property on a string primitive throws `TypeError` in strict mode (the file
begins with `'use strict'`).  Either way the iteration throws, modelled by
`.error .typeError`. -/
def decorateRecord (geoDisabled : Bool) (oracle : String → GeoResponse)
    (mapping : List EniMapping) (record : ExtractedRecord) :
    Except JsError ExtractedRecord :=
  match record.data with
  | .raw _ => .error .typeError
  | .parsed d =>
      let d1 := enrichEni mapping d
      match resolveGeo geoDisabled oracle d1.srcaddr with
      | .error e => .error (.geo e)
      | .ok (geo, _) => .ok { record with data := .parsed (applyGeo geo d1) }

/-- `decorateRecords` (index.js lines 163-197): the sequential `for` loop
(each geocode call is awaited before the next record); a throw or a
rejected await aborts the loop and rejects the returned promise. -/
def decorateRecords (geoDisabled : Bool) (oracle : String → GeoResponse)
    (mapping : List EniMapping) :
    List ExtractedRecord → Except JsError (List ExtractedRecord)
  | [] => .ok []
  | record :: rest => do
      let r ← decorateRecord geoDisabled oracle mapping record
      let rs ← decorateRecords geoDisabled oracle mapping rest
      .ok (r :: rs)

/-! ## Packaging (`packageRecords`, index.js lines 206-234) -/

/-- The payload of an output record: for a failed record the `data` field
is passed through unchanged; for a successful record it is
`Buffer.from(JSON.stringify(record.data)).toString('base64')`, modelled
here as a constructor holding the serialized object (the encoding is
injective and none of its bytes are inspected downstream). -/
inductive OutputData where
  | passthrough (d : RecordData)
  | encodedJson (d : RecordData)
deriving Repr, DecidableEq

/-- One record of the output batch handed back to Kinesis Firehose. -/
structure OutputRecord where
  recordId : String
  result : String
  data : OutputData
deriving Repr, DecidableEq

/-- `packageRecords` (index.js lines 206-234): error records become
`ProcessingFailed` with their data passed through; the rest become `Ok`
with the serialized payload. -/
def packageRecords (records : List ExtractedRecord) : List OutputRecord :=
  records.map (fun record =>
    if record.error then
      { recordId := record.id
        result := "ProcessingFailed"
        data := .passthrough record.data }
    else
      { recordId := record.id
        result := "Ok"
        data := .encodedJson record.data })

/-! ## The Lambda handler (index.js lines 243-262) -/

/-- The environment configuration the decorator reads:
`process.env.GEOLOCATION_ENABLED` (geolocation is disabled exactly when it
is the string `'false'`). -/
structure Env where
  geolocationEnabled : Option String
deriving Repr, DecidableEq

/-- The handler (index.js lines 243-262): `Promise.all` of the directory
build and the extraction, then decoration, then packaging; any rejection
falls to the `.catch` and the invocation fails (`callback(error)`),
modelled by `.error`.  The interface-enumeration provider's response is
passed in as `eniResponse` (`.error` models a failed
`describeNetworkInterfaces` call, which `buildEniToSecurityGroupMapping`
does not catch). -/
def handler (env : Env) (eniResponse : Except JsError (List NetworkInterface))
    (oracle : String → GeoResponse) (now : Nat)
    (records : List FirehoseRecord) : Except JsError (List OutputRecord) := do
  let interfaces ← eniResponse
  let mapping := buildEniToSecurityGroupMapping interfaces
  let extracted := extractRecords now records
  let decorated ←
    decorateRecords (env.geolocationEnabled == some "false") oracle mapping
      extracted
  .ok (packageRecords decorated)

/-! ## Declarative characterization of the matcher -/

/-- What it means for one item to match (exactly) a piece of text. -/
def ItemMatch : RItem → List Char → Prop
  | .lit c, l => l = [c]
  | .cls p, l => ∃ c, l = [c] ∧ p c = true
  | .rep p lo hi, l =>
      lo ≤ l.length ∧
      (match hi with | none => True | some h => l.length ≤ h) ∧
      l.all p = true
  | .alt as, l => l ∈ as

/-- What it means for a sequence of items to match a piece of text. -/
def SeqMatch : List RItem → List Char → Prop
  | [], l => l = []
  | i :: is, l => ∃ a b, l = a ++ b ∧ ItemMatch i a ∧ SeqMatch is b

/-- What it means for a pattern to match a piece of text with the given
captured groups. -/
def PatMatch : List RTok → List (List Char) → List Char → Prop
  | [], caps, l => caps = [] ∧ l = []
  | .item i :: ps, caps, l =>
      ∃ a b, l = a ++ b ∧ ItemMatch i a ∧ PatMatch ps caps b
  | .group g :: ps, caps, l =>
      ∃ a b caps2, l = a ++ b ∧ caps = a :: caps2 ∧ SeqMatch g a ∧
        PatMatch ps caps2 b

/-! ## Spec-side grammar definitions

The following definitions are written from the specification's words (not
from the source) in order to compare the implemented pattern with the
grammar the specification claims; see the theorems about `parserAccepts`. -/

/-- Split a character list at every occurrence of a separator character
(occurrences between, before and after separators give empty tokens, as
`String.splitOn` does). -/
def splitOnChar (sep : Char) : List Char → List (List Char)
  | [] => [[]]
  | c :: rest =>
    match splitOnChar sep rest with
    | [] => [[]]
    | t :: ts => if c = sep then [] :: t :: ts else (c :: t) :: ts

/-- A non-empty token of decimal digits. -/
def isDigitTok (l : List Char) : Bool :=
  !l.isEmpty && l.all jsDigit

/-- A dotted-quad group: one to three decimal digits. -/
def isQuadGroup (l : List Char) : Bool :=
  1 ≤ l.length && l.length ≤ 3 && l.all jsDigit

/-- A dotted-quad address as the specification describes it: four groups of
one to three digits separated by literal dots. -/
def isDottedQuad (l : List Char) : Bool :=
  match splitOnChar '.' l with
  | [a, b, c, d] => isQuadGroup a && isQuadGroup b && isQuadGroup c &&
      isQuadGroup d
  | _ => false

/-- An interface id as the specification describes it:
`eni-[A-Za-z0-9]+` (underscore not allowed). -/
def isEniId (l : List Char) : Bool :=
  match l with
  | 'e' :: 'n' :: 'i' :: '-' :: rest =>
      !rest.isEmpty &&
        rest.all (fun c =>
          ('a' ≤ c && c ≤ 'z') || ('A' ≤ c && c ≤ 'Z') || jsDigit c)
  | _ => false

/-- The grammar claimed by the specification: the whole line is the
fourteen fields, space-separated, in order, with dotted-quad addresses,
`eni-[A-Za-z0-9]+` interface id and the two enumerations. -/
def specGrammarAccepts (line : String) : Bool :=
  match splitOnChar ' ' line.toList with
  | [v, acct, eni, srcIp, dstIp, p1, p2, pr, pk, bt, st, en, act, ls] =>
      (v.length == 1 && v.all jsDigit) && isDigitTok acct &&
      isEniId eni && isDottedQuad srcIp && isDottedQuad dstIp &&
      isDigitTok p1 && isDigitTok p2 && isDigitTok pr && isDigitTok pk &&
      isDigitTok bt && isDigitTok st && isDigitTok en &&
      (act == "ACCEPT".toList || act == "REJECT".toList) &&
      (ls == "OK".toList || ls == "NODATA".toList ||
        ls == "SKIPDATA".toList)
  | _ => false

/-- A non-empty all-digit token, declaratively. -/
def DigitsTok (l : List Char) : Prop :=
  l ≠ [] ∧ l.all jsDigit = true

/-- The address shape the implemented pattern really recognizes: four
groups of one to three digits separated by arbitrary single characters
(the pattern's dots are unescaped). -/
def LooseQuad (l : List Char) : Prop :=
  ∃ d1 c1 d2 c2 d3 c3 d4,
    l = d1 ++ c1 :: (d2 ++ c2 :: (d3 ++ c3 :: d4)) ∧
    (1 ≤ d1.length ∧ d1.length ≤ 3 ∧ d1.all jsDigit = true) ∧
    jsAnyChar c1 = true ∧
    (1 ≤ d2.length ∧ d2.length ≤ 3 ∧ d2.all jsDigit = true) ∧
    jsAnyChar c2 = true ∧
    (1 ≤ d3.length ∧ d3.length ≤ 3 ∧ d3.all jsDigit = true) ∧
    jsAnyChar c3 = true ∧
    (1 ≤ d4.length ∧ d4.length ≤ 3 ∧ d4.all jsDigit = true)

/-- The interface-id shape the implemented pattern really recognizes:
`eni-` followed by one or more word characters (underscore included). -/
def EniTok (l : List Char) : Prop :=
  ∃ w, l = 'e' :: 'n' :: 'i' :: '-' :: w ∧ w ≠ [] ∧ w.all jsWord = true

/-- The language the implemented pattern really accepts: a prefix of the
line decomposes into the fourteen fields (with the relaxations above), and
arbitrary trailing characters may follow. -/
def RelaxedLine (line : String) : Prop :=
  ∃ v acct eni ip1 ip2 n1 n2 n3 n4 n5 n6 n7 act st rest : List Char,
    line.toList =
      v ++ ' ' :: (acct ++ ' ' :: (eni ++ ' ' :: (ip1 ++ ' ' ::
        (ip2 ++ ' ' :: (n1 ++ ' ' :: (n2 ++ ' ' :: (n3 ++ ' ' ::
        (n4 ++ ' ' :: (n5 ++ ' ' :: (n6 ++ ' ' :: (n7 ++ ' ' ::
        (act ++ ' ' :: (st ++ rest))))))))))))) ∧
    (∃ c, v = [c] ∧ jsDigit c = true) ∧
    DigitsTok acct ∧ EniTok eni ∧ LooseQuad ip1 ∧ LooseQuad ip2 ∧
    DigitsTok n1 ∧ DigitsTok n2 ∧ DigitsTok n3 ∧ DigitsTok n4 ∧
    DigitsTok n5 ∧ DigitsTok n6 ∧ DigitsTok n7 ∧
    act ∈ ["ACCEPT".toList, "REJECT".toList] ∧
    st ∈ ["OK".toList, "NODATA".toList, "SKIPDATA".toList]

/-! ## Further spec-side definitions for individual claims -/

/-- The dotted-quad string written from four numeric components. -/
def dottedQuadStr (a b c d : Nat) : String :=
  Nat.repr a ++ "." ++ Nat.repr b ++ "." ++ Nat.repr c ++ "." ++ Nat.repr d

/-- Membership of `a.b.c.d` in the reserved ranges named by the claim:
10.0.0.0/8, 172.16.0.0/12, 192.168.0.0/16 or 127.0.0.0/8. -/
abbrev InReservedRange (a b c d : Nat) : Prop :=
  (a = 10 ∨ a = 127 ∨ (a = 172 ∧ 16 ≤ b ∧ b ≤ 31) ∨ (a = 192 ∧ b = 168)) ∧
    b ≤ 255 ∧ c ≤ 255 ∧ d ≤ 255

/-- The fourteen tokens written back from a parsed record's fields, numeric
fields rendered in decimal. -/
def reconstructTokens (d : FlowData) : List String :=
  [Nat.repr d.version, Nat.repr d.accountId, d.interfaceId, d.srcaddr,
   d.destaddr, Nat.repr d.srcport, Nat.repr d.dstport, Nat.repr d.protocol,
   Nat.repr d.packets, Nat.repr d.bytes, Nat.repr d.windowStart,
   Nat.repr d.windowEnd, d.action, d.logStatus]

/-- A numeric token in canonical form denoting an exactly representable
value: it is the decimal rendering of its value and the value is below
`2^53`. -/
abbrev CanonicalNumTok (s : String) : Prop :=
  s = Nat.repr (digitsToNat s.toList) ∧ digitsToNat s.toList < 2 ^ 53
/-- A sample parsed flow entry (the specification's scenario line), used
as concrete input in witnesses. -/
def sampleFlow : FlowData where
  timestamp := 0
  version := 2
  accountId := 123456789012
  interfaceId := "eni-4ff3618a"
  srcaddr := "2.178.18.24"
  destaddr := "10.100.5.78"
  srcport := 23458
  dstport := 7547
  protocol := 6
  packets := 1
  bytes := 40
  windowStart := 1490365304
  windowEnd := 1490365358
  action := "ACCEPT"
  logStatus := "OK"

/-! ## Append-stability of the matcher

`ItemStable`/`SeqStable`/`StableFor` say that the backtracking search from
a given suffix of the subject string never consults the end of the string:
every repetition's greedy run stops strictly inside, every literal or
class test sees a character, and no alternation test runs off the end
mid-alternative.  Under these conditions the whole result list of the
matcher is invariant under appending more text (see `runPat_append`). -/

/-- Stability of a single item at a given suffix. -/
def ItemStable : RItem → List Char → Prop
  | .lit _, u => u ≠ []
  | .cls _, u => u ≠ []
  | .rep p _ _, u => (u.takeWhile p).length < u.length
  | .alt as, u =>
      ∀ a ∈ as, u.isPrefixOf a = true → a.isPrefixOf u = true

/-- Stability of an item sequence at a suffix: each item is stable and all
continuations are stable for the remaining items. -/
def SeqStable : List RItem → List Char → Prop
  | [], _ => True
  | i :: is, u => ItemStable i u ∧ ∀ u2 ∈ itemMatches i u, SeqStable is u2

/-- Stability of a whole pattern at a suffix. -/
def StableFor : List RTok → List Char → Prop
  | [], _ => True
  | .item i :: ps, u =>
      ItemStable i u ∧ ∀ u2 ∈ itemMatches i u, StableFor ps u2
  | .group g :: ps, u =>
      SeqStable g u ∧ ∀ u2 ∈ matchSeq g u, StableFor ps u2

/-- The tail of the flow-log pattern: `k` numeric groups (each followed by
a space) and then the action and log-status alternations. -/
def numTailPat : Nat → List RTok
  | 0 => [.group [.alt ["ACCEPT".toList, "REJECT".toList]],
          .item (.lit ' '),
          .group [.alt ["OK".toList, "NODATA".toList, "SKIPDATA".toList]]]
  | k + 1 => .group [.rep jsDigit 1 none] :: .item (.lit ' ') ::
      numTailPat k

/-! # Theorems -/

/-! ## Characterization of the matcher -/

theorem maxRun_cons (p : Char → Bool) (c : Char) (cs : List Char) :
    maxRun p (c :: cs) = if p c then maxRun p cs + 1 else 0 := by
  simp only [maxRun, List.takeWhile_cons]
  split <;> simp

theorem maxRun_le_length (p : Char → Bool) (s : List Char) :
    maxRun p s ≤ s.length :=
  (s.takeWhile_sublist p).length_le

theorem take_all_of_le_maxRun {p : Char → Bool} :
    ∀ {s : List Char} {k : Nat}, k ≤ maxRun p s →
      (s.take k).all p = true := by
  intro s
  induction s with
  | nil => intro k h; simp [maxRun] at h; simp [h]
  | cons c cs ih =>
    intro k h
    rw [maxRun_cons] at h
    cases k with
    | zero => simp
    | succ k =>
      split at h
      · next hc => simp only [List.take_succ_cons, List.all_cons, hc,
          Bool.true_and]; exact ih (Nat.le_of_succ_le_succ h)
      · omega

theorem length_le_maxRun_of_all {p : Char → Bool} :
    ∀ {a r : List Char}, a.all p = true → a.length ≤ maxRun p (a ++ r) := by
  intro a
  induction a with
  | nil => simp
  | cons c cs ih =>
    intro r h
    simp only [List.all_cons, Bool.and_eq_true] at h
    simp only [List.cons_append, maxRun_cons, h.1, if_true,
      List.length_cons]
    exact Nat.succ_le_succ (ih h.2)

theorem mem_descRange {m lo k : Nat} :
    k ∈ (if m < lo then ([] : List Nat)
      else (List.range (m - lo + 1)).map (fun j => m - j)) ↔
    lo ≤ k ∧ k ≤ m := by
  split
  · simp; omega
  · simp only [List.mem_map, List.mem_range]
    constructor
    · rintro ⟨j, hj, rfl⟩; omega
    · rintro ⟨h1, h2⟩; exact ⟨m - k, by omega, by omega⟩

theorem mem_repCands {p : Char → Bool} {lo : Nat} {hi : Option Nat}
    {s : List Char} {k : Nat} :
    k ∈ repCands p lo hi s ↔
      lo ≤ k ∧ k ≤ (match hi with
        | none => maxRun p s
        | some h => min h (maxRun p s)) := by
  cases hi <;> simp only [repCands] <;> exact mem_descRange

theorem mem_itemMatches {i : RItem} {s r : List Char} :
    r ∈ itemMatches i s ↔ ∃ a, s = a ++ r ∧ ItemMatch i a := by
  cases i with
  | lit c =>
    cases s with
    | nil =>
      simp only [itemMatches, List.not_mem_nil, false_iff, ItemMatch]
      rintro ⟨a, h, rfl⟩
      simp at h
    | cons x xs =>
      simp only [itemMatches, ItemMatch]
      split
      · next hx =>
        subst hx
        constructor
        · rintro h
          simp at h
          exact ⟨[x], by simp [h], rfl⟩
        · rintro ⟨a, h, rfl⟩
          simp at h
          simp [h]
      · next hx =>
        simp only [List.not_mem_nil, false_iff]
        rintro ⟨a, h, rfl⟩
        simp at h
        exact hx h.1
  | cls p =>
    cases s with
    | nil =>
      simp only [itemMatches, List.not_mem_nil, false_iff, ItemMatch]
      rintro ⟨a, h, c, rfl, _⟩
      simp at h
    | cons x xs =>
      simp only [itemMatches, ItemMatch]
      split
      · next hx =>
        constructor
        · rintro h
          simp at h
          exact ⟨[x], by simp [h], x, rfl, hx⟩
        · rintro ⟨a, h, c, rfl, hc⟩
          simp at h
          simp [h]
      · next hx =>
        simp only [List.not_mem_nil, false_iff]
        rintro ⟨a, h, c, rfl, hc⟩
        simp at h
        exact hx (h.1 ▸ hc)
  | rep p lo hi =>
    simp only [itemMatches, List.mem_map]
    constructor
    · rintro ⟨k, hk, rfl⟩
      rw [mem_repCands] at hk
      have hkr : k ≤ maxRun p s := by
        rcases hi with _ | h
        · exact hk.2
        · exact le_trans hk.2 (Nat.min_le_right _ _)
      have hks : k ≤ s.length := le_trans hkr (maxRun_le_length p s)
      refine ⟨s.take k, (List.take_append_drop k s).symm, ?_, ?_, ?_⟩
      · rw [List.length_take]; omega
      · rcases hi with _ | h
        · trivial
        · rw [List.length_take]
          have h4 := Nat.le_min.mp hk.2
          omega
      · exact take_all_of_le_maxRun hkr
    · rintro ⟨a, rfl, h1, h2, h3⟩
      refine ⟨a.length, ?_, by rw [List.drop_left]⟩
      rw [mem_repCands]
      have hm := length_le_maxRun_of_all (r := r) h3
      rcases hi with _ | h
      · exact ⟨h1, hm⟩
      · exact ⟨h1, le_min h2 hm⟩
  | alt as =>
    simp only [itemMatches, List.mem_filterMap]
    constructor
    · rintro ⟨a, ha, h⟩
      split at h
      · next hp =>
        rw [List.isPrefixOf_iff_prefix] at hp
        obtain ⟨t, rfl⟩ := hp
        simp only [Option.some.injEq] at h
        rw [List.drop_left] at h
        exact ⟨a, by rw [h], ha⟩
      · exact absurd h (by simp)
    · rintro ⟨a, rfl, ha⟩
      exact ⟨a, ha, by
        rw [if_pos (List.isPrefixOf_iff_prefix.mpr (List.prefix_append a r)),
          List.drop_left]⟩

theorem mem_matchSeq :
    ∀ {is : List RItem} {s r : List Char},
      r ∈ matchSeq is s ↔ ∃ a, s = a ++ r ∧ SeqMatch is a := by
  intro is
  induction is with
  | nil =>
    intro s r
    simp only [matchSeq, List.mem_singleton, SeqMatch]
    constructor
    · rintro rfl; exact ⟨[], rfl, rfl⟩
    · rintro ⟨a, rfl, rfl⟩; rfl
  | cons i is ih =>
    intro s r
    simp only [matchSeq, List.mem_flatMap]
    constructor
    · rintro ⟨r1, h1, h2⟩
      rw [mem_itemMatches] at h1
      obtain ⟨a, rfl, ha⟩ := h1
      rw [ih] at h2
      obtain ⟨b, rfl, hb⟩ := h2
      exact ⟨a ++ b, by rw [List.append_assoc], a, b, rfl, ha, hb⟩
    · rintro ⟨l, hl, a, b, rfl, ha, hb⟩
      subst hl
      exact ⟨b ++ r,
        mem_itemMatches.mpr ⟨a, by rw [List.append_assoc], ha⟩,
        ih.mpr ⟨b, rfl, hb⟩⟩

theorem take_append_sub (a b : List Char) :
    (a ++ b).take ((a ++ b).length - b.length) = a := by
  simp [List.length_append]

theorem mem_runPat :
    ∀ {ps : List RTok} {s : List Char} {caps : List (List Char)}
      {r : List Char},
      (caps, r) ∈ runPat ps s ↔ ∃ a, s = a ++ r ∧ PatMatch ps caps a := by
  intro ps
  induction ps with
  | nil =>
    intro s caps r
    simp only [runPat, List.mem_singleton, Prod.mk.injEq, PatMatch]
    constructor
    · rintro ⟨rfl, rfl⟩; exact ⟨[], rfl, rfl, rfl⟩
    · rintro ⟨a, rfl, rfl, rfl⟩; simp
  | cons p ps ih =>
    intro s caps r
    cases p with
    | item i =>
      simp only [runPat, List.mem_flatMap]
      constructor
      · rintro ⟨s2, h1, h2⟩
        rw [mem_itemMatches] at h1
        obtain ⟨a, rfl, ha⟩ := h1
        rw [ih] at h2
        obtain ⟨b, rfl, hb⟩ := h2
        exact ⟨a ++ b, by rw [List.append_assoc], a, b, rfl, ha, hb⟩
      · rintro ⟨l, hl, a, b, rfl, ha, hb⟩
        subst hl
        exact ⟨b ++ r,
          mem_itemMatches.mpr ⟨a, by rw [List.append_assoc], ha⟩,
          ih.mpr ⟨b, rfl, hb⟩⟩
    | group g =>
      simp only [runPat, List.mem_flatMap, List.mem_map]
      constructor
      · rintro ⟨s2, h1, cr, hcr, heq⟩
        rw [mem_matchSeq] at h1
        obtain ⟨a, rfl, ha⟩ := h1
        rw [ih] at hcr
        obtain ⟨b, rfl, hb⟩ := hcr
        obtain ⟨h2, h3⟩ := Prod.mk.injEq .. ▸ heq
        rw [take_append_sub] at h2
        exact ⟨a ++ b, by rw [← h3, List.append_assoc], a, b, cr.1,
          rfl, h2.symm, ha, hb⟩
      · rintro ⟨l, hl, a, b, caps2, rfl, rfl, ha, hb⟩
        subst hl
        refine ⟨b ++ r,
          mem_matchSeq.mpr ⟨a, by rw [List.append_assoc], ha⟩,
          (caps2, r), ih.mpr ⟨b, rfl, hb⟩, ?_⟩
        rw [List.append_assoc, take_append_sub]
theorem seqMatch_single {i : RItem} {l : List Char} :
    SeqMatch [i] l ↔ ItemMatch i l := by
  constructor
  · rintro ⟨a, b, rfl, h, hb⟩
    have : b = [] := hb
    subst this
    simpa using h
  · intro h
    exact ⟨l, [], by simp, h, rfl⟩

theorem seqMatch_digits {l : List Char} :
    SeqMatch [.rep jsDigit 1 none] l ↔ DigitsTok l := by
  rw [seqMatch_single]
  show 1 ≤ l.length ∧ True ∧ l.all jsDigit = true ↔ _
  unfold DigitsTok
  constructor
  · rintro ⟨h1, -, h3⟩
    exact ⟨List.ne_nil_of_length_pos h1, h3⟩
  · rintro ⟨h1, h2⟩
    exact ⟨List.length_pos.mpr h1, trivial, h2⟩

theorem seqMatch_eni {l : List Char} :
    SeqMatch [.lit 'e', .lit 'n', .lit 'i', .lit '-', .rep jsWord 1 none] l
      ↔ EniTok l := by
  constructor
  · rintro ⟨a1, b1, rfl, ha1, a2, b2, rfl, ha2, a3, b3, rfl, ha3, a4, b4,
      rfl, ha4, a5, b5, rfl, ha5, hb5⟩
    have e1 : a1 = ['e'] := ha1
    have e2 : a2 = ['n'] := ha2
    have e3 : a3 = ['i'] := ha3
    have e4 : a4 = ['-'] := ha4
    have e5 : b5 = [] := hb5
    obtain ⟨h1, -, h3⟩ := ha5
    subst e1 e2 e3 e4 e5
    exact ⟨a5, by simp, List.ne_nil_of_length_pos h1, h3⟩
  · rintro ⟨w, rfl, hw, hall⟩
    exact ⟨['e'], _, rfl, rfl, ['n'], _, rfl, rfl, ['i'], _, rfl, rfl,
      ['-'], _, rfl, rfl, w, [], by simp, ⟨List.length_pos.mpr hw,
        trivial, hall⟩, rfl⟩

theorem seqMatch_ip {l : List Char} :
    SeqMatch ipItems l ↔ LooseQuad l := by
  constructor
  · rintro ⟨d1, r1, rfl, hd1, x1, r2, rfl, hx1, d2, r3, rfl, hd2, x2, r4,
      rfl, hx2, d3, r5, rfl, hd3, x3, r6, rfl, hx3, d4, r7, rfl, hd4, hr7⟩
    obtain ⟨c1, rfl, hc1⟩ := hx1
    obtain ⟨c2, rfl, hc2⟩ := hx2
    obtain ⟨c3, rfl, hc3⟩ := hx3
    have e7 : r7 = [] := hr7
    subst e7
    obtain ⟨ha1, hb1, hall1⟩ := hd1
    obtain ⟨ha2, hb2, hall2⟩ := hd2
    obtain ⟨ha3, hb3, hall3⟩ := hd3
    obtain ⟨ha4, hb4, hall4⟩ := hd4
    exact ⟨d1, c1, d2, c2, d3, c3, d4, by simp, ⟨ha1, hb1, hall1⟩, hc1,
      ⟨ha2, hb2, hall2⟩, hc2, ⟨ha3, hb3, hall3⟩, hc3, ⟨ha4, hb4, hall4⟩⟩
  · rintro ⟨d1, c1, d2, c2, d3, c3, d4, rfl, h1, hc1, h2, hc2, h3, hc3, h4⟩
    exact ⟨d1, _, rfl, h1, [c1], _, rfl, ⟨c1, rfl, hc1⟩, d2, _, rfl, h2,
      [c2], _, rfl, ⟨c2, rfl, hc2⟩, d3, _, rfl, h3, [c3], _, rfl,
      ⟨c3, rfl, hc3⟩, d4, [], by simp, h4, rfl⟩

theorem patMatch_gs {g : List RItem} {ps : List RTok}
    {caps : List (List Char)} {l : List Char} :
    PatMatch (.group g :: .item (.lit ' ') :: ps) caps l ↔
      ∃ a caps2 b, l = a ++ ' ' :: b ∧ SeqMatch g a ∧ caps = a :: caps2 ∧
        PatMatch ps caps2 b := by
  constructor
  · rintro ⟨a, b, caps2, rfl, rfl, hg, sp, b2, rfl, hsp, hp⟩
    have e : sp = [' '] := hsp
    subst e
    exact ⟨a, caps2, b2, by simp, hg, rfl, hp⟩
  · rintro ⟨a, caps2, b, rfl, hg, rfl, hp⟩
    exact ⟨a, ' ' :: b, caps2, rfl, rfl, hg, [' '], b, rfl, rfl, hp⟩

theorem patMatch_last {g : List RItem} {caps : List (List Char)}
    {l : List Char} :
    PatMatch [.group g] caps l ↔ caps = [l] ∧ SeqMatch g l := by
  constructor
  · rintro ⟨a, b, caps2, rfl, rfl, hg, hend⟩
    obtain ⟨rfl, rfl⟩ : (caps2 = [] ∧ b = []) := hend
    exact ⟨by simp, by simpa using hg⟩
  · rintro ⟨rfl, hg⟩
    exact ⟨l, [], [], by simp, rfl, hg, rfl, rfl⟩

theorem patMatch_parser_iff {caps : List (List Char)} {l : List Char} :
    PatMatch parser caps l ↔
      ∃ v acct eni ip1 ip2 n1 n2 n3 n4 n5 n6 n7 act st : List Char,
        l = v ++ ' ' :: (acct ++ ' ' :: (eni ++ ' ' :: (ip1 ++ ' ' ::
          (ip2 ++ ' ' :: (n1 ++ ' ' :: (n2 ++ ' ' :: (n3 ++ ' ' ::
          (n4 ++ ' ' :: (n5 ++ ' ' :: (n6 ++ ' ' :: (n7 ++ ' ' ::
          (act ++ ' ' :: st)))))))))))) ∧
        caps = [v, acct, eni, ip1, ip2, n1, n2, n3, n4, n5, n6, n7,
          act, st] ∧
        (∃ c, v = [c] ∧ jsDigit c = true) ∧
        DigitsTok acct ∧ EniTok eni ∧ LooseQuad ip1 ∧ LooseQuad ip2 ∧
        DigitsTok n1 ∧ DigitsTok n2 ∧ DigitsTok n3 ∧ DigitsTok n4 ∧
        DigitsTok n5 ∧ DigitsTok n6 ∧ DigitsTok n7 ∧
        act ∈ ["ACCEPT".toList, "REJECT".toList] ∧
        st ∈ ["OK".toList, "NODATA".toList, "SKIPDATA".toList] := by
  show PatMatch (.group [.cls jsDigit] :: .item (.lit ' ') :: _) caps l ↔ _
  rw [patMatch_gs]
  constructor
  · rintro ⟨v, caps1, b1, rfl, hv, rfl, hrest⟩
    rw [patMatch_gs] at hrest
    obtain ⟨acct, caps2, b2, rfl, hacct, rfl, hrest⟩ := hrest
    rw [patMatch_gs] at hrest
    obtain ⟨eni, caps3, b3, rfl, heni, rfl, hrest⟩ := hrest
    rw [patMatch_gs] at hrest
    obtain ⟨ip1, caps4, b4, rfl, hip1, rfl, hrest⟩ := hrest
    rw [patMatch_gs] at hrest
    obtain ⟨ip2, caps5, b5, rfl, hip2, rfl, hrest⟩ := hrest
    rw [patMatch_gs] at hrest
    obtain ⟨n1, caps6, b6, rfl, hn1, rfl, hrest⟩ := hrest
    rw [patMatch_gs] at hrest
    obtain ⟨n2, caps7, b7, rfl, hn2, rfl, hrest⟩ := hrest
    rw [patMatch_gs] at hrest
    obtain ⟨n3, caps8, b8, rfl, hn3, rfl, hrest⟩ := hrest
    rw [patMatch_gs] at hrest
    obtain ⟨n4, caps9, b9, rfl, hn4, rfl, hrest⟩ := hrest
    rw [patMatch_gs] at hrest
    obtain ⟨n5, caps10, b10, rfl, hn5, rfl, hrest⟩ := hrest
    rw [patMatch_gs] at hrest
    obtain ⟨n6, caps11, b11, rfl, hn6, rfl, hrest⟩ := hrest
    rw [patMatch_gs] at hrest
    obtain ⟨n7, caps12, b12, rfl, hn7, rfl, hrest⟩ := hrest
    rw [patMatch_gs] at hrest
    obtain ⟨act, caps13, b13, rfl, hact, rfl, hrest⟩ := hrest
    rw [patMatch_last] at hrest
    obtain ⟨rfl, hst⟩ := hrest
    rw [seqMatch_single] at hv hact
    rw [seqMatch_digits] at hacct
    rw [seqMatch_eni] at heni
    rw [seqMatch_ip] at hip1 hip2
    rw [seqMatch_digits] at hn1 hn2 hn3 hn4 hn5 hn6 hn7
    rw [seqMatch_single] at hst
    exact ⟨v, acct, eni, ip1, ip2, n1, n2, n3, n4, n5, n6, n7, act, b13,
      rfl, rfl, hv, hacct, heni, hip1, hip2, hn1, hn2, hn3, hn4, hn5, hn6,
      hn7, hact, hst⟩
  · rintro ⟨v, acct, eni, ip1, ip2, n1, n2, n3, n4, n5, n6, n7, act, st,
      rfl, rfl, hv, hacct, heni, hip1, hip2, hn1, hn2, hn3, hn4, hn5,
      hn6, hn7, hact, hst⟩
    refine ⟨v, _, _, rfl, seqMatch_single.mpr hv, rfl, ?_⟩
    rw [patMatch_gs]
    refine ⟨acct, _, _, rfl, seqMatch_digits.mpr hacct, rfl, ?_⟩
    rw [patMatch_gs]
    refine ⟨eni, _, _, rfl, seqMatch_eni.mpr heni, rfl, ?_⟩
    rw [patMatch_gs]
    refine ⟨ip1, _, _, rfl, seqMatch_ip.mpr hip1, rfl, ?_⟩
    rw [patMatch_gs]
    refine ⟨ip2, _, _, rfl, seqMatch_ip.mpr hip2, rfl, ?_⟩
    rw [patMatch_gs]
    refine ⟨n1, _, _, rfl, seqMatch_digits.mpr hn1, rfl, ?_⟩
    rw [patMatch_gs]
    refine ⟨n2, _, _, rfl, seqMatch_digits.mpr hn2, rfl, ?_⟩
    rw [patMatch_gs]
    refine ⟨n3, _, _, rfl, seqMatch_digits.mpr hn3, rfl, ?_⟩
    rw [patMatch_gs]
    refine ⟨n4, _, _, rfl, seqMatch_digits.mpr hn4, rfl, ?_⟩
    rw [patMatch_gs]
    refine ⟨n5, _, _, rfl, seqMatch_digits.mpr hn5, rfl, ?_⟩
    rw [patMatch_gs]
    refine ⟨n6, _, _, rfl, seqMatch_digits.mpr hn6, rfl, ?_⟩
    rw [patMatch_gs]
    refine ⟨n7, _, _, rfl, seqMatch_digits.mpr hn7, rfl, ?_⟩
    rw [patMatch_gs]
    refine ⟨act, _, _, rfl, seqMatch_single.mpr hact, rfl, ?_⟩
    rw [patMatch_last]
    exact ⟨rfl, seqMatch_single.mpr hst⟩

theorem parserAccepts_iff_relaxedLine {line : String} :
    parserAccepts line = true ↔ RelaxedLine line := by
  unfold parserAccepts
  constructor
  · intro h
    match hrp : runPat parser line.toList with
    | [] => rw [hrp] at h; simp at h
    | (caps, r) :: tl =>
      have hmem : (caps, r) ∈ runPat parser line.toList := by
        rw [hrp]; exact List.mem_cons_self _ _
      obtain ⟨a, ha, hp⟩ := mem_runPat.mp hmem
      obtain ⟨v, acct, eni, ip1, ip2, n1, n2, n3, n4, n5, n6, n7, act, st,
        rfl, -, hv, hacct, heni, hip1, hip2, hn1, hn2, hn3, hn4, hn5, hn6,
        hn7, hact, hst⟩ := patMatch_parser_iff.mp hp
      refine ⟨v, acct, eni, ip1, ip2, n1, n2, n3, n4, n5, n6, n7, act,
        st, r, ?_, hv, hacct, heni, hip1, hip2, hn1, hn2, hn3, hn4, hn5,
        hn6, hn7, hact, hst⟩
      rw [ha]
      simp [List.append_assoc]
  · rintro ⟨v, acct, eni, ip1, ip2, n1, n2, n3, n4, n5, n6, n7, act, st,
      rest, heq, hv, hacct, heni, hip1, hip2, hn1, hn2, hn3, hn4, hn5,
      hn6, hn7, hact, hst⟩
    have hp : PatMatch parser
        [v, acct, eni, ip1, ip2, n1, n2, n3, n4, n5, n6, n7, act, st]
        (v ++ ' ' :: (acct ++ ' ' :: (eni ++ ' ' :: (ip1 ++ ' ' ::
          (ip2 ++ ' ' :: (n1 ++ ' ' :: (n2 ++ ' ' :: (n3 ++ ' ' ::
          (n4 ++ ' ' :: (n5 ++ ' ' :: (n6 ++ ' ' :: (n7 ++ ' ' ::
          (act ++ ' ' :: st))))))))))))) :=
      patMatch_parser_iff.mpr ⟨v, acct, eni, ip1, ip2, n1, n2, n3, n4, n5,
        n6, n7, act, st, rfl, rfl, hv, hacct, heni, hip1, hip2, hn1, hn2,
        hn3, hn4, hn5, hn6, hn7, hact, hst⟩
    have hmem : (([v, acct, eni, ip1, ip2, n1, n2, n3, n4, n5, n6, n7,
        act, st] : List (List Char)), rest) ∈ runPat parser line.toList :=
      mem_runPat.mpr ⟨_, by rw [heq]; simp [List.append_assoc], hp⟩
    cases hrp : runPat parser line.toList with
    | nil => rw [hrp] at hmem; simp at hmem
    | cons x tl => rfl
/-! ## Helper lemmas about the pipeline -/

theorem enrichEni_srcaddr (mapping : List EniMapping) (d : FlowData) :
    (enrichEni mapping d).srcaddr = d.srcaddr := by
  unfold enrichEni
  cases mapping.find? (fun m => m.interfaceId == d.interfaceId) <;> rfl

theorem roundFloat64_of_lt {n : Nat} (h : n < 2 ^ 53) :
    roundFloat64 n = n := by
  unfold roundFloat64
  rw [if_pos h]

theorem intercalate_singleton (sep a : String) :
    String.intercalate sep [a] = a :=
  rfl

/-! ## Claim theorems -/

/-- C1: the claim says a record whose decoded line fails the flow-log
grammar reaches the output batch tagged `ProcessingFailed` and never causes
the whole invocation to fail.  The code violates this: `decorateRecords`
processes parse-failure records too, and on such a record `record.data` is
a plain string, so with geolocation enabled `isRfc1918Address(undefined)`
throws `TypeError`, and with geolocation disabled the strict-mode property
assignment `record.data['source-country-code'] = ''` throws `TypeError`.
Either way the handler's promise chain rejects and the batch fails.  This
theorem evaluates the pipeline on a batch holding one malformed record
(`"aGVsbG8="` decodes to `"hello"`) under both environment settings. -/
theorem c1_malformed_record_aborts_batch :
    handler ⟨some "false"⟩ (.ok []) (fun _ => .netError) 0
      [⟨"r1", "aGVsbG8="⟩] = .error .typeError ∧
    handler ⟨none⟩ (.ok []) (fun _ => .netError) 0
      [⟨"r1", "aGVsbG8="⟩] = .error .typeError :=
  ⟨rfl, rfl⟩

/-- C2 counterexample: the claim says a failed interface-enumeration call
is recovered by substituting an empty directory so that every record still
reaches a terminal `OutcomeRecord`.  In the code nothing catches the
failure: `Promise.all` rejects, the `.catch` calls `callback(error)` and no
output batch is produced, as evaluated here on a one-record batch whose
record parses fine and geolocation disabled. -/
theorem c2_directory_failure_cex :
    handler ⟨some "false"⟩ (.error .providerError) (fun _ => .netError) 0
      [⟨"r1", "MiAxMjM0NTY3ODkwMTIgZW5pLTRmZjM2MThhIDIuMTc4LjE4LjI0IDEwLjEwMC41Ljc4IDIzNDU4IDc1NDcgNiAxIDQwIDE0OTAzNjUzMDQgMTQ5MDM2NTM1OCBBQ0NFUFQgT0s="⟩]
      = .error .providerError :=
  rfl

/-- C2 amended: if the interface-enumeration provider call fails, the
whole batch invocation fails with that error — no empty directory is
substituted and no record produces an `OutcomeRecord`. -/
theorem c2_directory_failure_propagates (env : Env) (e : JsError)
    (oracle : String → GeoResponse) (now : Nat)
    (records : List FirehoseRecord) :
    handler env (.error e) oracle now records = .error e :=
  rfl

/-- C3 counterexample: the claim says a non-rate-limit error status from
the geocode provider is recovered by a null geo result and never
propagates.  In the code `geocode` rejects on any status other than 200
and 403, `decorateRecords` awaits it without a catch, and the handler's
promise chain rejects: on a one-record batch whose record parses and whose
lookup returns status 500, the invocation fails. -/
theorem c3_geocode_error_cex :
    handler ⟨none⟩ (.ok []) (fun _ => .http 500 none) 0
      [⟨"r1", "MiAxMjM0NTY3ODkwMTIgZW5pLTRmZjM2MThhIDIuMTc4LjE4LjI0IDEwLjEwMC41Ljc4IDIzNDU4IDc1NDcgNiAxIDQwIDE0OTAzNjUzMDQgMTQ5MDM2NTM1OCBBQ0NFUFQgT0s="⟩]
      = .error (.geo (.badStatus 500)) :=
  rfl

/-- C3 amended: a geocode-provider response with any status other than 200
and 403 makes the geocode promise reject with that status error; the
rejection propagates through `decorateRecords` and fails the whole batch
(the record never becomes an `OutcomeRecord` at all, failed or
otherwise). -/
theorem c3_geocode_error_propagates (oracle : String → GeoResponse)
    (mapping : List EniMapping) (recId : String) (d : FlowData)
    (code : Nat) (body : Option GeoData) (rest : List ExtractedRecord)
    (h403 : code ≠ 403) (h200 : code ≠ 200)
    (hpriv : isRfc1918Address d.srcaddr = false)
    (horacle : oracle d.srcaddr = .http code body) :
    decorateRecords false oracle mapping
      (⟨recId, .parsed d, false⟩ :: rest) =
      .error (.geo (.badStatus code)) := by
  have hgeo : geocode (.http code body) = .error (.badStatus code) := by
    simp only [geocode]
    rw [if_neg (by simpa using h403), if_pos (by simpa using h200)]
  have hres : resolveGeo false oracle (enrichEni mapping d).srcaddr =
      .error (.badStatus code) := by
    unfold resolveGeo
    rw [enrichEni_srcaddr, horacle, hgeo]
    simp [hpriv]
  simp only [decorateRecords, decorateRecord, hres]
  rfl

/-- C3 amended, witness. -/
theorem c3_geocode_error_propagates_witness :
    decorateRecords false (fun _ => .http 500 none) []
      [⟨"r1", .parsed sampleFlow, false⟩] =
      .error (.geo (.badStatus 500)) :=
  c3_geocode_error_propagates _ _ _ _ _ _ _ (by decide) (by decide)
    (by decide) rfl

/-- C4: record extraction is total — `extractRecords` is a plain function
on every batch — and a record whose decoded line the pattern rejects is
mapped, at its own position, to an entry with the error flag set whose
`data` is the record's original transport payload, unchanged. -/
theorem c4_extract_total_malformed_preserved (now : Nat)
    (records : List FirehoseRecord) (i : Nat) (h : i < records.length)
    (hfail : parserExec (decodeBase64Utf8 records[i].data) = none) :
    (extractRecords now records)[i]? =
      some ⟨records[i].recordId, .raw records[i].data, true⟩ := by
  unfold extractRecords
  rw [List.getElem?_map, List.getElem?_eq_getElem h]
  simp only [Option.map_some']
  rw [hfail]

/-- C4, witness. -/
theorem c4_extract_total_malformed_preserved_witness :
    (extractRecords 0 [⟨"r1", "aGVsbG8="⟩])[0]? =
      some ⟨"r1", .raw "aGVsbG8=", true⟩ :=
  c4_extract_total_malformed_preserved 0 _ 0 (by decide) (by decide)

/-- C5: when the geocode provider answers a parsed record's lookup with a
403 (rate limit), `geocode` resolves `null` (a warning is logged), the
record stays a non-error record whose geo string fields are all empty with
location latitude and longitude 0, and packaging that record yields an
`Ok` outcome. -/
theorem c5_rate_limited_record_is_ok (oracle : String → GeoResponse)
    (mapping : List EniMapping) (recId : String) (d : FlowData)
    (body : Option GeoData)
    (hpriv : isRfc1918Address d.srcaddr = false)
    (horacle : oracle d.srcaddr = .http 403 body) :
    geocode (oracle d.srcaddr) = .ok none ∧
    ∃ d2, decorateRecord false oracle mapping ⟨recId, .parsed d, false⟩ =
        .ok ⟨recId, .parsed d2, false⟩ ∧
      d2.sourceCountryCode = "" ∧ d2.sourceCountryName = "" ∧
      d2.sourceRegionCode = "" ∧ d2.sourceRegionName = "" ∧
      d2.sourceCity = "" ∧ d2.sourceLocationLat = 0 ∧
      d2.sourceLocationLon = 0 ∧
      packageRecords [⟨recId, .parsed d2, false⟩] =
        [⟨recId, "Ok", .encodedJson (.parsed d2)⟩] := by
  constructor
  · rw [horacle]; rfl
  · refine ⟨applyGeo none (enrichEni mapping d), ?_, rfl, rfl, rfl, rfl,
      rfl, rfl, rfl, rfl⟩
    have hres : resolveGeo false oracle (enrichEni mapping d).srcaddr =
        .ok (none, [d.srcaddr]) := by
      unfold resolveGeo
      rw [enrichEni_srcaddr, horacle]
      simp [hpriv, geocode]
    simp only [decorateRecord, hres]

/-- C5, witness. -/
theorem c5_rate_limited_record_is_ok_witness :
    geocode ((fun _ => GeoResponse.http 403 none) "2.178.18.24") =
        .ok none ∧
    ∃ d2, decorateRecord false (fun _ => .http 403 none) []
        ⟨"r1", .parsed sampleFlow, false⟩ = .ok ⟨"r1", .parsed d2, false⟩ ∧
      d2.sourceCountryCode = "" ∧ d2.sourceCountryName = "" ∧
      d2.sourceRegionCode = "" ∧ d2.sourceRegionName = "" ∧
      d2.sourceCity = "" ∧ d2.sourceLocationLat = 0 ∧
      d2.sourceLocationLon = 0 ∧
      packageRecords [⟨"r1", .parsed d2, false⟩] =
        [⟨"r1", "Ok", .encodedJson (.parsed d2)⟩] :=
  c5_rate_limited_record_is_ok (fun _ => .http 403 none) [] "r1"
    sampleFlow none (by decide) rfl
/-- Every address of the reserved ranges named by the specification is
matched by the `isRfc1918Address` pattern. -/
theorem isRfc1918Address_reserved (a b c d : Nat)
    (h : InReservedRange a b c d) :
    isRfc1918Address (dottedQuadStr a b c d) = true := by
  obtain ⟨hcase, hb, hc, hd⟩ := h
  rcases hcase with rfl | rfl | ⟨rfl, h1, h2⟩ | ⟨rfl, rfl⟩
  · rfl
  · rfl
  · interval_cases b <;> rfl
  · rfl

/-- C7: whenever geolocation is administratively disabled, or the source
address lies in 10.0.0.0/8, 172.16.0.0/12, 192.168.0.0/16 or 127.0.0.0/8,
the geolocation step of `decorateRecords` yields `null` immediately and
the list of addresses sent to the external geocode provider is empty (no
external call is made). -/
theorem c7_reserved_or_disabled_skips_geocode (geoDisabled : Bool)
    (oracle : String → GeoResponse) (addr : String)
    (h : geoDisabled = true ∨
      ∃ a b c d, addr = dottedQuadStr a b c d ∧ InReservedRange a b c d) :
    resolveGeo geoDisabled oracle addr = .ok (none, []) := by
  rcases h with rfl | ⟨a, b, c, d, rfl, hr⟩
  · rfl
  · unfold resolveGeo
    rw [isRfc1918Address_reserved a b c d hr]
    simp

/-- C7, witness: a 10.0.0.0/8 address with geolocation enabled. -/
theorem c7_reserved_or_disabled_skips_geocode_witness :
    resolveGeo false (fun _ => .netError) "10.1.2.3" = .ok (none, []) :=
  c7_reserved_or_disabled_skips_geocode false (fun _ => .netError)
    "10.1.2.3" (Or.inr ⟨10, 1, 2, 3, rfl, by decide⟩)

/-- C8: ENI enrichment.  If the directory lookup of the record's interface
id hits an entry whose primary-address projection is the single address
`addr`, the enriched record carries that entry's security group ids and
its direction is `inbound` exactly when the destination address equals
`addr`, else `outbound`.  If the lookup misses, the record is returned
unchanged — in particular `securityGroupIds` and `direction` stay absent
and no error is signalled (`enrichEni` cannot fail and the record's error
flag is untouched by `decorateRecord`). -/
theorem c8_eni_enrichment (mapping : List EniMapping) (d : FlowData) :
    (∀ e addr,
      mapping.find? (fun m => m.interfaceId == d.interfaceId) = some e →
      e.ipAddress = [addr] →
      (enrichEni mapping d).securityGroupIds = some e.securityGroupIds ∧
      (enrichEni mapping d).direction =
        some (if d.destaddr = addr then "inbound" else "outbound")) ∧
    (mapping.find? (fun m => m.interfaceId == d.interfaceId) = none →
      enrichEni mapping d = d) := by
  constructor
  · intro e addr hfind hip
    unfold enrichEni
    rw [hfind]
    refine ⟨rfl, ?_⟩
    simp only [jsEqStrArray, hip, intercalate_singleton]
    by_cases hde : d.destaddr = addr
    · simp [hde]
    · simp [hde]
  · intro hnone
    unfold enrichEni
    rw [hnone]

/-- C8, witness: the specification's scenario — the sample entry against a
directory holding its interface with security group `sg-1` and primary
address equal to the record's destination. -/
theorem c8_eni_enrichment_witness :
    (enrichEni [⟨"eni-4ff3618a", ["sg-1"], ["10.100.5.78"]⟩]
        sampleFlow).securityGroupIds = some ["sg-1"] ∧
    (enrichEni [⟨"eni-4ff3618a", ["sg-1"], ["10.100.5.78"]⟩]
        sampleFlow).direction =
      some (if sampleFlow.destaddr = "10.100.5.78"
        then "inbound" else "outbound") :=
  (c8_eni_enrichment [⟨"eni-4ff3618a", ["sg-1"], ["10.100.5.78"]⟩]
      sampleFlow).1
    ⟨"eni-4ff3618a", ["sg-1"], ["10.100.5.78"]⟩ "10.100.5.78"
    (by decide) rfl

/-- C9 counterexample: the line with account token `007` parses, but the
parsed record stores `Number("007") = 7`, so writing the fields back does
not recover the original tokens; and `Number` on a 16-digit token above
`2^53` is not the integer value of the token (IEEE-754 rounding), refuting
exact recovery there as well. -/
theorem c9_roundtrip_cex :
    parserExec "1 007 eni-a 1.1.1.1 2.2.2.2 1 1 1 1 1 1 1 ACCEPT OK" =
      some ["1", "007", "eni-a", "1.1.1.1", "2.2.2.2", "1", "1", "1", "1",
        "1", "1", "1", "ACCEPT", "OK"] ∧
    reconstructTokens (flowOfCaptures 0 "1" "007" "eni-a" "1.1.1.1"
        "2.2.2.2" "1" "1" "1" "1" "1" "1" "1" "ACCEPT" "OK") ≠
      ["1", "007", "eni-a", "1.1.1.1", "2.2.2.2", "1", "1", "1", "1", "1",
        "1", "1", "ACCEPT", "OK"] ∧
    jsNumberOfDigits "9007199254740993".toList ≠
      digitsToNat "9007199254740993".toList :=
  ⟨rfl, by decide, by decide⟩

/-- C9 amended: for every line the pattern matches whose numeric tokens
are canonical decimal renderings of values below `2^53`, extraction
recovers every field exactly — each numeric field is the integer value of
its token, the string fields are the tokens verbatim — and writing the
fields back yields the original fourteen tokens. -/
theorem c9_roundtrip_amended (line : String)
    (v acct eni ip1 ip2 n1 n2 n3 n4 n5 n6 n7 act st : String) (now : Nat)
    (hexec : parserExec line =
      some [v, acct, eni, ip1, ip2, n1, n2, n3, n4, n5, n6, n7, act, st])
    (hv : CanonicalNumTok v) (hacct : CanonicalNumTok acct)
    (h1 : CanonicalNumTok n1) (h2 : CanonicalNumTok n2)
    (h3 : CanonicalNumTok n3) (h4 : CanonicalNumTok n4)
    (h5 : CanonicalNumTok n5) (h6 : CanonicalNumTok n6)
    (h7 : CanonicalNumTok n7) :
    reconstructTokens (flowOfCaptures now v acct eni ip1 ip2 n1 n2 n3 n4
        n5 n6 n7 act st) =
      [v, acct, eni, ip1, ip2, n1, n2, n3, n4, n5, n6, n7, act, st] ∧
    (flowOfCaptures now v acct eni ip1 ip2 n1 n2 n3 n4 n5 n6 n7 act
        st).version = digitsToNat v.toList ∧
    (flowOfCaptures now v acct eni ip1 ip2 n1 n2 n3 n4 n5 n6 n7 act
        st).accountId = digitsToNat acct.toList ∧
    (flowOfCaptures now v acct eni ip1 ip2 n1 n2 n3 n4 n5 n6 n7 act
        st).srcport = digitsToNat n1.toList ∧
    (flowOfCaptures now v acct eni ip1 ip2 n1 n2 n3 n4 n5 n6 n7 act
        st).dstport = digitsToNat n2.toList ∧
    (flowOfCaptures now v acct eni ip1 ip2 n1 n2 n3 n4 n5 n6 n7 act
        st).protocol = digitsToNat n3.toList ∧
    (flowOfCaptures now v acct eni ip1 ip2 n1 n2 n3 n4 n5 n6 n7 act
        st).packets = digitsToNat n4.toList ∧
    (flowOfCaptures now v acct eni ip1 ip2 n1 n2 n3 n4 n5 n6 n7 act
        st).bytes = digitsToNat n5.toList ∧
    (flowOfCaptures now v acct eni ip1 ip2 n1 n2 n3 n4 n5 n6 n7 act
        st).windowStart = digitsToNat n6.toList ∧
    (flowOfCaptures now v acct eni ip1 ip2 n1 n2 n3 n4 n5 n6 n7 act
        st).windowEnd = digitsToNat n7.toList ∧
    (flowOfCaptures now v acct eni ip1 ip2 n1 n2 n3 n4 n5 n6 n7 act
        st).interfaceId = eni ∧
    (flowOfCaptures now v acct eni ip1 ip2 n1 n2 n3 n4 n5 n6 n7 act
        st).srcaddr = ip1 ∧
    (flowOfCaptures now v acct eni ip1 ip2 n1 n2 n3 n4 n5 n6 n7 act
        st).destaddr = ip2 ∧
    (flowOfCaptures now v acct eni ip1 ip2 n1 n2 n3 n4 n5 n6 n7 act
        st).action = act ∧
    (flowOfCaptures now v acct eni ip1 ip2 n1 n2 n3 n4 n5 n6 n7 act
        st).logStatus = st := by
  have ev : Nat.repr (jsNumberOfDigits v.toList) = v := by
    rw [jsNumberOfDigits, roundFloat64_of_lt hv.2]; exact hv.1.symm
  have eacct : Nat.repr (jsNumberOfDigits acct.toList) = acct := by
    rw [jsNumberOfDigits, roundFloat64_of_lt hacct.2]; exact hacct.1.symm
  have e1 : Nat.repr (jsNumberOfDigits n1.toList) = n1 := by
    rw [jsNumberOfDigits, roundFloat64_of_lt h1.2]; exact h1.1.symm
  have e2 : Nat.repr (jsNumberOfDigits n2.toList) = n2 := by
    rw [jsNumberOfDigits, roundFloat64_of_lt h2.2]; exact h2.1.symm
  have e3 : Nat.repr (jsNumberOfDigits n3.toList) = n3 := by
    rw [jsNumberOfDigits, roundFloat64_of_lt h3.2]; exact h3.1.symm
  have e4 : Nat.repr (jsNumberOfDigits n4.toList) = n4 := by
    rw [jsNumberOfDigits, roundFloat64_of_lt h4.2]; exact h4.1.symm
  have e5 : Nat.repr (jsNumberOfDigits n5.toList) = n5 := by
    rw [jsNumberOfDigits, roundFloat64_of_lt h5.2]; exact h5.1.symm
  have e6 : Nat.repr (jsNumberOfDigits n6.toList) = n6 := by
    rw [jsNumberOfDigits, roundFloat64_of_lt h6.2]; exact h6.1.symm
  have e7 : Nat.repr (jsNumberOfDigits n7.toList) = n7 := by
    rw [jsNumberOfDigits, roundFloat64_of_lt h7.2]; exact h7.1.symm
  refine ⟨?_, ?_, ?_, ?_, ?_, ?_, ?_, ?_, ?_, ?_, rfl, rfl, rfl, rfl, rfl⟩
  · simp only [reconstructTokens, flowOfCaptures, ev, eacct, e1, e2, e3,
      e4, e5, e6, e7]
  all_goals
    simp only [flowOfCaptures, jsNumberOfDigits]
  · rw [roundFloat64_of_lt hv.2]
  · rw [roundFloat64_of_lt hacct.2]
  · rw [roundFloat64_of_lt h1.2]
  · rw [roundFloat64_of_lt h2.2]
  · rw [roundFloat64_of_lt h3.2]
  · rw [roundFloat64_of_lt h4.2]
  · rw [roundFloat64_of_lt h5.2]
  · rw [roundFloat64_of_lt h6.2]
  · rw [roundFloat64_of_lt h7.2]

/-- C9 amended, witness: a canonical line, hypotheses discharged
concretely. -/
theorem c9_roundtrip_amended_witness :
    reconstructTokens (flowOfCaptures 0 "1" "23" "eni-a" "1.2.3.4"
        "5.6.7.8" "9" "10" "11" "12" "13" "14" "15" "ACCEPT" "OK") =
      ["1", "23", "eni-a", "1.2.3.4", "5.6.7.8", "9", "10", "11", "12",
        "13", "14", "15", "ACCEPT", "OK"] :=
  (c9_roundtrip_amended
    "1 23 eni-a 1.2.3.4 5.6.7.8 9 10 11 12 13 14 15 ACCEPT OK"
    "1" "23" "eni-a" "1.2.3.4" "5.6.7.8" "9" "10" "11" "12" "13" "14"
    "15" "ACCEPT" "OK" 0 rfl (by decide) (by decide) (by decide)
    (by decide) (by decide) (by decide) (by decide) (by decide)
    (by decide)).1
/-- C6 counterexample: the claim says the pattern accepts a line exactly
when it matches the strict grammar (dotted-quad addresses with literal
dots, `eni-[A-Za-z0-9]+`, whole line).  The dots in the pattern's address
groups are unescaped and match any character, so a line whose address
separators are the letter `x` is accepted although the strict grammar
rejects it. -/
theorem c6_grammar_cex :
    parserAccepts "1 1 eni-a 1x2x3x4 5x6x7x8 1 1 1 1 1 1 1 ACCEPT OK" =
      true ∧
    specGrammarAccepts
      "1 1 eni-a 1x2x3x4 5x6x7x8 1 1 1 1 1 1 1 ACCEPT OK" = false :=
  ⟨rfl, rfl⟩

/-- C6 amended: the pattern accepts a line if and only if a prefix of it
decomposes into the fourteen space-separated fields where the two
addresses are four 1-to-3-digit groups separated by arbitrary single
characters (not only dots), the interface id matches `eni-` followed by
word characters (underscore included), the numeric fields are digit
strings, action is `ACCEPT` or `REJECT` and log status is `OK`, `NODATA`
or `SKIPDATA` — with arbitrary trailing characters allowed after the
log-status token (the pattern is anchored at the start only). -/
theorem c6_grammar_amended (line : String) :
    parserAccepts line = true ↔ RelaxedLine line :=
  parserAccepts_iff_relaxedLine
/-! ## Append stability (generic part) -/

theorem isPrefixOf_append_stable {a u t : List Char}
    (h : u.isPrefixOf a = true → a.isPrefixOf u = true) :
    a.isPrefixOf (u ++ t) = a.isPrefixOf u := by
  cases hau : a.isPrefixOf u with
  | true =>
    rw [List.isPrefixOf_iff_prefix] at hau ⊢
    exact hau.trans (List.prefix_append u t)
  | false =>
    cases hat : a.isPrefixOf (u ++ t) with
    | false => rfl
    | true =>
      exfalso
      rw [List.isPrefixOf_iff_prefix] at hat
      have hau2 : ¬ (a <+: u) := by
        intro hp
        rw [← List.isPrefixOf_iff_prefix] at hp
        rw [hp] at hau
        cases hau
      rcases le_or_lt a.length u.length with hle | hlt
      · exact hau2 (List.prefix_of_prefix_length_le hat
          (List.prefix_append u t) hle)
      · have hu : u <+: a :=
          List.prefix_of_prefix_length_le (List.prefix_append u t) hat
            (Nat.le_of_lt hlt)
        have ha : a <+: u := List.isPrefixOf_iff_prefix.mp
          (h (List.isPrefixOf_iff_prefix.mpr hu))
        exact absurd ha.length_le (by omega)

theorem itemMatches_append {i : RItem} {u t : List Char}
    (h : ItemStable i u) :
    itemMatches i (u ++ t) = (itemMatches i u).map (· ++ t) := by
  cases i with
  | lit c =>
    cases u with
    | nil => exact absurd rfl h
    | cons x xs =>
      simp only [List.cons_append, itemMatches]
      split <;> simp
  | cls p =>
    cases u with
    | nil => exact absurd rfl h
    | cons x xs =>
      simp only [List.cons_append, itemMatches]
      split <;> simp
  | rep p lo hi =>
    have h' : (u.takeWhile p).length < u.length := h
    have hm : maxRun p (u ++ t) = maxRun p u := by
      unfold maxRun
      rw [List.takeWhile_append, if_neg (by omega)]
    have hcands : repCands p lo hi (u ++ t) = repCands p lo hi u := by
      unfold repCands
      rw [hm]
    simp only [itemMatches, hcands, List.map_map]
    refine List.map_congr_left ?_
    intro k hk
    rw [mem_repCands] at hk
    have hmr : maxRun p u ≤ u.length := maxRun_le_length p u
    have hkl : k ≤ u.length := by
      rcases hi with _ | hh
      · have h5 : k ≤ maxRun p u := hk.2
        omega
      · have h5 : k ≤ min hh (maxRun p u) := hk.2
        have h6 := Nat.le_min.mp h5
        omega
    simp [List.drop_append_of_le_length hkl]
  | alt as =>
    have h' : ∀ a ∈ as, u.isPrefixOf a = true → a.isPrefixOf u = true := h
    simp only [itemMatches]
    induction as with
    | nil => rfl
    | cons a rest ih =>
      simp only [List.filterMap_cons]
      rw [isPrefixOf_append_stable (h' a (List.mem_cons_self a rest))]
      cases hau : a.isPrefixOf u with
      | false =>
        simpa using ih (fun a2 ha2 => h' a2 (List.mem_cons_of_mem a ha2))
          (fun a2 ha2 => h' a2 (List.mem_cons_of_mem a ha2))
      | true =>
        have hla : a.length ≤ u.length :=
          (List.isPrefixOf_iff_prefix.mp hau).length_le
        rw [ih (fun a2 ha2 => h' a2 (List.mem_cons_of_mem a ha2))
          (fun a2 ha2 => h' a2 (List.mem_cons_of_mem a ha2))]
        simp [hau, List.drop_append_of_le_length hla]

theorem matchSeq_append :
    ∀ {is : List RItem} {u t : List Char}, SeqStable is u →
      matchSeq is (u ++ t) = (matchSeq is u).map (· ++ t) := by
  intro is
  induction is with
  | nil => intro u t _; rfl
  | cons i is ih =>
    intro u t h
    obtain ⟨h1, h2⟩ := h
    simp only [matchSeq, itemMatches_append h1, List.flatMap_map]
    rw [List.flatMap_congr (fun u2 hu2 => ih (h2 u2 hu2)),
      ← List.map_flatMap]

theorem runPat_append :
    ∀ {ps : List RTok} {u t : List Char}, StableFor ps u →
      runPat ps (u ++ t) =
        (runPat ps u).map (fun cr => (cr.1, cr.2 ++ t)) := by
  intro ps
  induction ps with
  | nil => intro u t _; rfl
  | cons p ps ih =>
    intro u t h
    cases p with
    | item i =>
      obtain ⟨h1, h2⟩ := h
      simp only [runPat, itemMatches_append h1, List.flatMap_map]
      rw [List.flatMap_congr (fun u2 hu2 => ih (h2 u2 hu2)),
        ← List.map_flatMap]
    | group g =>
      obtain ⟨h1, h2⟩ := h
      simp only [runPat, matchSeq_append h1, List.flatMap_map,
        List.map_flatMap]
      refine List.flatMap_congr ?_
      intro u2 hu2
      have hlen : u2.length ≤ u.length := by
        obtain ⟨a, ha, -⟩ := mem_matchSeq.mp hu2
        rw [ha]
        simp
      rw [ih (h2 u2 hu2), List.map_map, List.map_map]
      have htake : (u ++ t).take ((u ++ t).length - (u2 ++ t).length) =
          u.take (u.length - u2.length) := by
        rw [List.length_append, List.length_append,
          show u.length + t.length - (u2.length + t.length) =
            u.length - u2.length by omega,
          List.take_append_of_le_length (by omega)]
      refine List.map_congr_left ?_
      intro cr _
      simp only [List.length_append] at htake
      simp [Function.comp, htake]
/-! ## Stability of the flow-log pattern on accepted lines -/

theorem takeWhile_lt_of_mem {p : Char → Bool} :
    ∀ {u : List Char} {c : Char}, c ∈ u → p c = false →
      (u.takeWhile p).length < u.length := by
  intro u
  induction u with
  | nil => intro c hc; cases hc
  | cons x xs ih =>
    intro c hc hpc
    rw [List.takeWhile_cons]
    cases hx : p x with
    | false => simp
    | true =>
      rcases List.mem_cons.mp hc with rfl | hmem
      · rw [hx] at hpc; cases hpc
      · simpa using ih hmem hpc

theorem prefix_all_le {p : Char → Bool} {A X a u2 : List Char} {c : Char}
    (heq : A ++ c :: X = a ++ u2) (hall : a.all p = true)
    (hc : p c = false) : a.length ≤ A.length := by
  by_contra hgt
  push_neg at hgt
  have h1 : (A ++ c :: X)[A.length]? = some c := by
    rw [List.getElem?_append_right (Nat.le_refl _)]
    simp
  have h2 : (a ++ u2)[A.length]? = a[A.length]? := by
    simp [List.getElem?_append, hgt]
  rw [heq, h2] at h1
  have hmem : c ∈ a := by
    have := List.getElem?_eq_some.mp h1
    obtain ⟨hlt, hget⟩ := this
    exact hget ▸ List.getElem_mem hlt
  have := List.all_eq_true.mp hall c hmem
  rw [hc] at this
  cases this

theorem splitAfter {A X a u2 : List Char} {c : Char}
    (heq : A ++ c :: X = a ++ u2) (hle : a.length ≤ A.length) :
    u2 = A.drop a.length ++ c :: X := by
  have h1 : u2 = (a ++ u2).drop a.length := by
    rw [List.drop_left]
  rw [h1, ← heq, List.drop_append_of_le_length hle]

theorem suffix_append_cases {z A B : List Char} (h : z <:+ A ++ B) :
    z <:+ B ∨ ∃ s, s <:+ A ∧ s ≠ [] ∧ z = s ++ B := by
  obtain ⟨w, hw⟩ := h
  have hz : z = (A ++ B).drop w.length := by
    rw [← hw, List.drop_left]
  rw [List.drop_append_eq_append_drop] at hz
  rcases le_or_lt A.length w.length with hle | hlt
  · left
    rw [List.drop_eq_nil_of_le hle] at hz
    rw [hz, List.nil_append]
    exact List.drop_suffix _ _
  · right
    refine ⟨A.drop w.length, List.drop_suffix _ _, ?_, ?_⟩
    · intro hnil
      have := congrArg List.length hnil
      simp at this
      omega
    · rw [hz, Nat.sub_eq_zero_of_le (Nat.le_of_lt hlt), List.drop_zero]
theorem suffix_digits_block {D R : List Char} (hD : D.all jsDigit = true)
    (hR : ∀ z, z <:+ R → ∀ c zt, z = c :: zt → jsDigit c = false →
      ∃ c2 zt2, zt = c2 :: zt2 ∧ jsDigit c2 = true) :
    ∀ z, z <:+ (D ++ R) → ∀ c zt, z = c :: zt → jsDigit c = false →
      ∃ c2 zt2, zt = c2 :: zt2 ∧ jsDigit c2 = true := by
  intro z hz c zt hcons hc
  rcases suffix_append_cases hz with h | ⟨s, hs, hsne, rfl⟩
  · exact hR z h c zt hcons hc
  · cases s with
    | nil => exact absurd rfl hsne
    | cons sh st' =>
      have hmem : sh ∈ D := hs.subset (List.mem_cons_self _ _)
      have hd := List.all_eq_true.mp hD sh hmem
      rw [List.cons_append] at hcons
      injection hcons with h1 h2
      rw [h1] at hd
      rw [hd] at hc
      cases hc

theorem suffix_any_block {x : Char} {D R : List Char} (hD : D ≠ [])
    (hDall : D.all jsDigit = true)
    (hR : ∀ z, z <:+ R → ∀ c zt, z = c :: zt → jsDigit c = false →
      ∃ c2 zt2, zt = c2 :: zt2 ∧ jsDigit c2 = true) :
    ∀ z, z <:+ (x :: (D ++ R)) → ∀ c zt, z = c :: zt →
      jsDigit c = false →
      ∃ c2 zt2, zt = c2 :: zt2 ∧ jsDigit c2 = true := by
  intro z hz c zt hcons hc
  rcases List.suffix_cons_iff.mp hz with rfl | h
  · injection hcons with h1 h2
    cases hDh : D with
    | nil => exact absurd hDh hD
    | cons dh dt =>
      refine ⟨dh, dt ++ R, ?_, ?_⟩
      · rw [← h2, hDh, List.cons_append]
      · exact List.all_eq_true.mp hDall dh (hDh ▸ List.mem_cons_self _ _)
  · exact suffix_digits_block hDall hR z h c zt hcons hc

theorem looseQuad_suffix_digit {a z : List Char} {c : Char} {zt : List Char}
    (hl : LooseQuad a) (hz : z <:+ a) (hcons : z = c :: zt)
    (hc : jsDigit c = false) :
    ∃ c2 zt2, zt = c2 :: zt2 ∧ jsDigit c2 = true := by
  obtain ⟨d1, c1, d2, c2x, d3, c3, d4, rfl, h1, hc1, h2, hc2, h3, hc3, h4⟩
    := hl
  have hnil : ∀ z2, z2 <:+ ([] : List Char) → ∀ c' zt', z2 = c' :: zt' →
      jsDigit c' = false →
      ∃ c2' zt2', zt' = c2' :: zt2' ∧ jsDigit c2' = true := by
    intro z2 hz2 c' zt' hcons' _
    rw [List.suffix_nil.mp hz2] at hcons'
    cases hcons'
  have L1 := suffix_any_block (x := c3)
    (List.ne_nil_of_length_pos h4.1) h4.2.2 hnil
  have L2 := suffix_any_block (x := c2x)
    (List.ne_nil_of_length_pos h3.1) h3.2.2 L1
  have L3 := suffix_any_block (x := c1)
    (List.ne_nil_of_length_pos h2.1) h2.2.2 L2
  have L4 := suffix_digits_block h1.2.2 L3
  simp only [List.append_nil] at L4
  exact L4 z hz c zt hcons hc
theorem looseQuad_no_cross {a2 rest2 w3 T : List Char} {x y : Char}
    (hl : LooseQuad a2)
    (heq : a2 ++ rest2 = w3 ++ (x :: y :: T))
    (hx : jsDigit x = false) (hy : jsDigit y = false) :
    a2.length ≤ w3.length := by
  by_contra hgt
  push_neg at hgt
  have hw3 : w3 <+: a2 := by
    refine List.prefix_of_prefix_length_le ?_
      (List.prefix_append a2 rest2) (le_of_lt hgt)
    rw [heq]
    exact List.prefix_append w3 _
  obtain ⟨z, hz⟩ := hw3
  have hzne : z ≠ [] := by
    intro h
    rw [h, List.append_nil] at hz
    rw [← hz] at hgt
    omega
  have hz2 : z ++ rest2 = x :: y :: T := by
    have h2 := heq
    rw [← hz, List.append_assoc] at h2
    exact List.append_cancel_left h2
  have hzsuf : z <:+ a2 := ⟨w3, hz⟩
  cases z with
  | nil => exact absurd rfl hzne
  | cons zh zt =>
    rw [List.cons_append] at hz2
    injection hz2 with hzx hrest
    subst hzx
    obtain ⟨c2, zt2, hzt, hc2⟩ := looseQuad_suffix_digit hl hzsuf rfl hx
    rw [hzt, List.cons_append] at hrest
    injection hrest with hcy hrest2
    rw [hcy] at hc2
    rw [hc2] at hy
    cases hy

theorem stsStable (st g2 : List Char)
    (hst : st ∈ ["OK".toList, "NODATA".toList, "SKIPDATA".toList]) :
    ∀ a2 ∈ ["OK".toList, "NODATA".toList, "SKIPDATA".toList],
      (st ++ g2).isPrefixOf a2 = true →
        a2.isPrefixOf (st ++ g2) = true := by
  intro a2 ha2 hp
  have h1 : st <+: a2 :=
    (List.prefix_append st g2).trans (List.isPrefixOf_iff_prefix.mp hp)
  simp only [List.mem_cons, List.not_mem_nil, or_false] at hst ha2
  rcases hst with rfl | rfl | rfl <;> rcases ha2 with rfl | rfl | rfl <;>
    first
      | exact List.isPrefixOf_iff_prefix.mpr (List.prefix_append _ _)
      | exact absurd h1 (by decide)
theorem stableFor_numTail :
    ∀ (k : Nat) (u w act st g2 : List Char),
      act ∈ ["ACCEPT".toList, "REJECT".toList] →
      st ∈ ["OK".toList, "NODATA".toList, "SKIPDATA".toList] →
      u = w ++ (act ++ ' ' :: (st ++ g2)) →
      StableFor (numTailPat k) u := by
  intro k
  induction k with
  | zero =>
    intro u w act st g2 hact hst heq
    have hsp : ' ' ∈ u := by
      rw [heq]
      exact List.mem_append_right _
        (List.mem_append_right _ (List.mem_cons_self _ _))
    have hact6 : act.length = 6 := by
      simp only [List.mem_cons, List.not_mem_nil, or_false] at hact
      rcases hact with rfl | rfl <;> decide
    refine ⟨⟨?_, fun u2 _ => trivial⟩, ?_⟩
    · -- the action alternation is stable: `u` contains a space and no
      -- alternative does, so `u` is never a strict prefix of one
      intro aa haa hp
      exfalso
      have hmem : ' ' ∈ aa := (List.isPrefixOf_iff_prefix.mp hp).subset hsp
      simp only [List.mem_cons, List.not_mem_nil, or_false] at haa
      rcases haa with rfl | rfl <;> exact absurd hmem (by decide)
    · intro u2 hu2
      obtain ⟨a, heqa, hsm⟩ := mem_matchSeq.mp hu2
      rw [seqMatch_single] at hsm
      have hamem : a ∈ ["ACCEPT".toList, "REJECT".toList] := hsm
      have ha6 : a.length = 6 := by
        simp only [List.mem_cons, List.not_mem_nil, or_false] at hamem
        rcases hamem with rfl | rfl <;> decide
      have h0 := congrArg List.length heq
      have h1 := congrArg List.length heqa
      simp only [List.length_append, List.length_cons, hact6, ha6] at h0 h1
      refine ⟨?_, ?_⟩
      · intro hnil
        rw [hnil] at h1
        simp at h1
        omega
      · intro u3 hu3
        obtain ⟨a', heqsp, ha'⟩ := mem_itemMatches.mp hu3
        have ha'' : a' = [' '] := ha'
        subst ha''
        rw [heqsp] at heqa
        refine ⟨⟨?_, fun u4 _ => trivial⟩, fun u4 _ => trivial⟩
        cases w with
        | nil =>
          rw [List.nil_append] at heq
          rw [heq] at heqa
          have hinj := List.append_inj heqa (by omega)
          obtain ⟨rfl, hrest⟩ := hinj
          rw [List.singleton_append] at hrest
          injection hrest with h1x h2x
          rw [← h2x]
          exact stsStable st g2 hst
        | cons c0 w0 =>
          -- `u3` lies strictly before the action token, so it contains
          -- the block's space, which no status alternative contains
          have hdrop : u.drop 7 = u3 := by
            rw [heqa, List.drop_append_eq_append_drop,
              List.drop_eq_nil_of_le (by omega), List.nil_append,
              show 7 - a.length = 1 by omega]
            rfl
          have hu3sp : ' ' ∈ u3 := by
            rw [← hdrop, heq, List.drop_append_eq_append_drop]
            rcases le_or_lt 7 (c0 :: w0).length with hle | hlt
            · apply List.mem_append_right
              rw [show 7 - (c0 :: w0).length = 0 by omega, List.drop_zero]
              exact List.mem_append_right _ (List.mem_cons_self _ _)
            · rw [List.drop_eq_nil_of_le (by omega), List.nil_append,
                List.drop_append_eq_append_drop,
                show 7 - (c0 :: w0).length - act.length = 0 by
                  have h2 : (c0 :: w0).length = w0.length + 1 := by simp
                  omega,
                List.drop_zero]
              exact List.mem_append_right _ (List.mem_cons_self _ _)
          intro aa haa hp
          exfalso
          have hmem : ' ' ∈ aa :=
            (List.isPrefixOf_iff_prefix.mp hp).subset hu3sp
          simp only [List.mem_cons, List.not_mem_nil, or_false] at haa
          rcases haa with rfl | rfl | rfl <;> exact absurd hmem (by decide)
  | succ k ih =>
    intro u w act st g2 hact hst heq
    obtain ⟨ah, at', hact_eq, hahd, hahsp⟩ :
        ∃ ah at', act = ah :: at' ∧ jsDigit ah = false ∧ ah ≠ ' ' := by
      simp only [List.mem_cons, List.not_mem_nil, or_false] at hact
      rcases hact with rfl | rfl
      · exact ⟨'A', _, rfl, by decide, by decide⟩
      · exact ⟨'R', _, rfl, by decide, by decide⟩
    have heq' : u = w ++ ah :: (at' ++ ' ' :: (st ++ g2)) := by
      rw [heq, hact_eq, List.cons_append]
    refine ⟨⟨?_, fun u2 _ => trivial⟩, ?_⟩
    · refine takeWhile_lt_of_mem ?_ hahd
      rw [heq']
      exact List.mem_append_right _ (List.mem_cons_self _ _)
    · intro u2 hu2
      obtain ⟨a, heqa, hsm⟩ := mem_matchSeq.mp hu2
      rw [seqMatch_single] at hsm
      obtain ⟨hlen1, -, hall⟩ := hsm
      have heqa' : w ++ ah :: (at' ++ ' ' :: (st ++ g2)) = a ++ u2 := by
        rw [← heq', heqa]
      have hle := prefix_all_le heqa' hall hahd
      have hu2eq := splitAfter heqa' hle
      refine ⟨?_, ?_⟩
      · rw [hu2eq]
        intro hnil
        simp at hnil
      · intro u3 hu3
        obtain ⟨a', heqsp, ha'⟩ := mem_itemMatches.mp hu3
        have ha'' : a' = [' '] := ha'
        subst ha''
        have hcomb : List.drop a.length w ++ ah ::
            (at' ++ ' ' :: (st ++ g2)) = ' ' :: u3 := by
          rw [← hu2eq, heqsp, List.singleton_append]
        cases hdk : w.drop a.length with
        | nil =>
          rw [hdk, List.nil_append] at hcomb
          injection hcomb with h1x h2x
          exact absurd h1x hahsp
        | cons c0 w0 =>
          rw [hdk, List.cons_append] at hcomb
          injection hcomb with h1x h2x
          exact ih u3 w0 act st g2 hact hst
            (by rw [← h2x, hact_eq, List.cons_append])
theorem seqStable_repDead {REST : List RItem} {st g2 : List Char}
    (hhead : ∃ sh st', st = sh :: st' ∧ jsDigit sh = false) :
    SeqStable (.rep jsDigit 1 (some 3) :: REST) (st ++ g2) := by
  obtain ⟨sh, st', rfl, hsh⟩ := hhead
  constructor
  · exact takeWhile_lt_of_mem
      (List.mem_append_left _ (List.mem_cons_self _ _)) hsh
  · intro u2 hu2
    exfalso
    obtain ⟨a, heqa, him⟩ := mem_itemMatches.mp hu2
    obtain ⟨hlen1, -, hall⟩ := him
    cases a with
    | nil => simp at hlen1
    | cons ah a' =>
      rw [List.cons_append, List.cons_append] at heqa
      injection heqa with h1x h2x
      have hd := List.all_eq_true.mp hall ah (List.mem_cons_self _ _)
      rw [← h1x, hsh] at hd
      cases hd

theorem seqStable_repStep {REST : List RItem} {u w st g2 : List Char}
    (heq : u = w ++ ' ' :: (st ++ g2))
    (hrest : ∀ u2 w2, u2 = w2 ++ ' ' :: (st ++ g2) → SeqStable REST u2) :
    SeqStable (.rep jsDigit 1 (some 3) :: REST) u := by
  constructor
  · have hm : ' ' ∈ u := by
      rw [heq]
      exact List.mem_append_right _ (List.mem_cons_self _ _)
    exact takeWhile_lt_of_mem hm (by decide)
  · intro u2 hu2
    obtain ⟨a, heqa, him⟩ := mem_itemMatches.mp hu2
    obtain ⟨-, -, hall⟩ := him
    have heq2 : w ++ ' ' :: (st ++ g2) = a ++ u2 := by rw [← heq, heqa]
    have hle := prefix_all_le heq2 hall (by decide)
    exact hrest u2 (w.drop a.length) (splitAfter heq2 hle)

theorem seqStable_clsStep {REST : List RItem} {u w st g2 : List Char}
    {q : Char → Bool}
    (heq : u = w ++ ' ' :: (st ++ g2))
    (hrest : ∀ u2 w2, u2 = w2 ++ ' ' :: (st ++ g2) → SeqStable REST u2)
    (hdead : SeqStable REST (st ++ g2)) :
    SeqStable (.cls q :: REST) u := by
  constructor
  · rw [heq]
    intro hnil
    simp at hnil
  · intro u2 hu2
    obtain ⟨a, heqa, him⟩ := mem_itemMatches.mp hu2
    obtain ⟨ch, rfl, -⟩ := him
    rw [heq] at heqa
    cases w with
    | nil =>
      rw [List.nil_append, List.singleton_append] at heqa
      injection heqa with h1x h2x
      exact h2x ▸ hdead
    | cons c0 w0 =>
      rw [List.cons_append, List.singleton_append] at heqa
      injection heqa with h1x h2x
      exact hrest u2 w0 h2x.symm

theorem seqStable_ipItems {u w st g2 : List Char}
    (hsthead : ∃ sh st', st = sh :: st' ∧ jsDigit sh = false)
    (heq : u = w ++ ' ' :: (st ++ g2)) :
    SeqStable ipItems u :=
  seqStable_repStep heq (fun _ _ h2 =>
    seqStable_clsStep h2 (fun _ _ h3 =>
      seqStable_repStep h3 (fun _ _ h4 =>
        seqStable_clsStep h4 (fun _ _ h5 =>
          seqStable_repStep h5 (fun _ _ h6 =>
            seqStable_clsStep h6 (fun _ _ h7 =>
              seqStable_repStep h7 (fun _ _ _ => trivial))
              (seqStable_repDead hsthead)))
          (seqStable_repDead hsthead)))
      (seqStable_repDead hsthead))
theorem afterRun_branches {p : Char → Bool} {ps : List RTok}
    {W X a u2 : List Char}
    (hsp : p ' ' = false) (hW : W.all p = true)
    (heq : W ++ ' ' :: X = a ++ u2) (ha : a.all p = true)
    (hcont : StableFor ps X) :
    StableFor (.item (.lit ' ') :: ps) u2 := by
  have hle := prefix_all_le heq ha hsp
  have hu2eq := splitAfter heq hle
  constructor
  · rw [hu2eq]
    intro hnil
    simp at hnil
  · intro u3 hu3
    obtain ⟨a', heqsp, ha'⟩ := mem_itemMatches.mp hu3
    have ha2 : a' = [' '] := ha'
    subst ha2
    rw [hu2eq, List.singleton_append] at heqsp
    cases hdk : W.drop a.length with
    | nil =>
      rw [hdk, List.nil_append] at heqsp
      injection heqsp with h1x h2x
      exact h2x ▸ hcont
    | cons c0 w0 =>
      rw [hdk, List.cons_append] at heqsp
      injection heqsp with h1x h2x
      exfalso
      have hc0 : c0 ∈ W := by
        refine List.drop_subset a.length W ?_
        rw [hdk]
        exact List.mem_cons_self _ _
      have hpc0 := List.all_eq_true.mp hW c0 hc0
      rw [h1x, hsp] at hpc0
      cases hpc0

theorem stableFor_spaceCons {ps : List RTok} {X : List Char}
    (hcont : StableFor ps X) :
    StableFor (.item (.lit ' ') :: ps) (' ' :: X) := by
  refine ⟨List.cons_ne_nil _ _, ?_⟩
  intro u3 hu3
  obtain ⟨a', heqsp, ha'⟩ := mem_itemMatches.mp hu3
  have ha2 : a' = [' '] := ha'
  subst ha2
  rw [List.singleton_append] at heqsp
  injection heqsp with h1x h2x
  exact h2x ▸ hcont

theorem stableFor_version_cons {ps : List RTok} {c0 : Char} {X : List Char}
    (hcont : StableFor ps X) :
    StableFor (.group [.cls jsDigit] :: .item (.lit ' ') :: ps)
      (c0 :: ' ' :: X) := by
  refine ⟨⟨List.cons_ne_nil _ _, fun u2 _ => trivial⟩, ?_⟩
  intro u2 hu2
  obtain ⟨a, heqa, hsm⟩ := mem_matchSeq.mp hu2
  rw [seqMatch_single] at hsm
  obtain ⟨ch, rfl, -⟩ := hsm
  rw [List.singleton_append] at heqa
  injection heqa with h1x h2x
  exact h2x ▸ stableFor_spaceCons hcont

theorem stableFor_digits_cons {ps : List RTok} {A X : List Char}
    (hA : A.all jsDigit = true) (hcont : StableFor ps X) :
    StableFor (.group [.rep jsDigit 1 none] :: .item (.lit ' ') :: ps)
      (A ++ ' ' :: X) := by
  refine ⟨⟨?_, fun u2 _ => trivial⟩, ?_⟩
  · exact takeWhile_lt_of_mem
      (List.mem_append_right _ (List.mem_cons_self _ _)) (by decide)
  · intro u2 hu2
    obtain ⟨a, heqa, hsm⟩ := mem_matchSeq.mp hu2
    rw [seqMatch_single] at hsm
    obtain ⟨-, -, hall⟩ := hsm
    exact afterRun_branches (by decide) hA heqa hall hcont

theorem seqStable_litStep {c : Char} {REST : List RItem} {u : List Char}
    (hrest : SeqStable REST u) :
    SeqStable (.lit c :: REST) (c :: u) := by
  refine ⟨List.cons_ne_nil _ _, ?_⟩
  intro u2 hu2
  obtain ⟨a, heqa, ha⟩ := mem_itemMatches.mp hu2
  have e : a = [c] := ha
  subst e
  rw [List.singleton_append] at heqa
  injection heqa with h1 h2
  exact h2 ▸ hrest

theorem stableFor_eni_cons {ps : List RTok} {w0 X : List Char}
    (hw : w0.all jsWord = true) (hcont : StableFor ps X) :
    StableFor (.group [.lit 'e', .lit 'n', .lit 'i', .lit '-',
        .rep jsWord 1 none] :: .item (.lit ' ') :: ps)
      ('e' :: 'n' :: 'i' :: '-' :: (w0 ++ ' ' :: X)) := by
  constructor
  · refine seqStable_litStep (seqStable_litStep (seqStable_litStep
      (seqStable_litStep ⟨?_, fun u2 _ => trivial⟩)))
    exact takeWhile_lt_of_mem
      (List.mem_append_right _ (List.mem_cons_self _ _)) (by decide)
  · intro u2 hu2
    obtain ⟨a, heqa, hsm⟩ := mem_matchSeq.mp hu2
    rw [seqMatch_eni] at hsm
    obtain ⟨aw, rfl, -, hallw⟩ := hsm
    simp only [List.cons_append] at heqa
    injection heqa with h1 heqa
    injection heqa with h2 heqa
    injection heqa with h3 heqa
    injection heqa with h4 heqa
    exact afterRun_branches (by decide) hw heqa hallw hcont
theorem stableFor_ip_cons {ps : List RTok} {u w act st g2 : List Char}
    (hact : act ∈ ["ACCEPT".toList, "REJECT".toList])
    (hst : st ∈ ["OK".toList, "NODATA".toList, "SKIPDATA".toList])
    (heq : u = w ++ (act ++ ' ' :: (st ++ g2)))
    (hcont : ∀ u4 w4, u4 = w4 ++ (act ++ ' ' :: (st ++ g2)) →
      StableFor ps u4) :
    StableFor (.group ipItems :: .item (.lit ' ') :: ps) u := by
  obtain ⟨x, y, act2, hactx, hx, hy, hxs⟩ :
      ∃ x y act2, act = x :: y :: act2 ∧ jsDigit x = false ∧
        jsDigit y = false ∧ x ≠ ' ' := by
    simp only [List.mem_cons, List.not_mem_nil, or_false] at hact
    rcases hact with rfl | rfl
    · exact ⟨'A', 'C', _, rfl, by decide, by decide, by decide⟩
    · exact ⟨'R', 'E', _, rfl, by decide, by decide, by decide⟩
  have hsthead : ∃ sh st', st = sh :: st' ∧ jsDigit sh = false := by
    simp only [List.mem_cons, List.not_mem_nil, or_false] at hst
    rcases hst with rfl | rfl | rfl
    · exact ⟨'O', _, rfl, by decide⟩
    · exact ⟨'N', _, rfl, by decide⟩
    · exact ⟨'S', _, rfl, by decide⟩
  constructor
  · have heq' : u = (w ++ act) ++ ' ' :: (st ++ g2) := by
      rw [heq, List.append_assoc]
    exact seqStable_ipItems hsthead heq'
  · intro u2 hu2
    obtain ⟨a2, heqa, hsm⟩ := mem_matchSeq.mp hu2
    rw [seqMatch_ip] at hsm
    have heq2 : w ++ x :: (y :: (act2 ++ ' ' :: (st ++ g2))) = a2 ++ u2 := by
      rw [← heqa, heq, hactx]
      rfl
    have hle : a2.length ≤ w.length :=
      looseQuad_no_cross hsm heq2.symm hx hy
    have hu2eq : u2 = w.drop a2.length ++ (act ++ ' ' :: (st ++ g2)) := by
      rw [splitAfter heq2 hle, hactx]
      rfl
    refine ⟨?_, ?_⟩
    · rw [hu2eq]
      intro hnil
      simp at hnil
    · intro u3 hu3
      obtain ⟨a', heq3, ha'⟩ := mem_itemMatches.mp hu3
      have e : a' = [' '] := ha'
      subst e
      rw [hu2eq, List.singleton_append] at heq3
      cases hdk : w.drop a2.length with
      | nil =>
        rw [hdk, List.nil_append, hactx, List.cons_append] at heq3
        injection heq3 with h1 h2
        exact absurd h1 hxs
      | cons c0 w0 =>
        rw [hdk, List.cons_append] at heq3
        injection heq3 with h1 h2
        exact hcont u3 w0 h2.symm
theorem stableFor_parser_of_relaxed {line : String} (h : RelaxedLine line) :
    StableFor parser line.toList := by
  obtain ⟨v, acct, eni, ip1, ip2, n1, n2, n3, n4, n5, n6, n7, act, st, rest,
    heq, hv, hacct, heni, hip1, hip2, hn1, hn2, hn3, hn4, hn5, hn6, hn7,
    hact, hst⟩ := h
  obtain ⟨c0, rfl, -⟩ := hv
  obtain ⟨w0, rfl, -, hwall⟩ := heni
  rw [heq]
  apply stableFor_version_cons
  apply stableFor_digits_cons hacct.2
  apply stableFor_eni_cons hwall
  have hship1 : ip1 ++ ' ' :: (ip2 ++ ' ' :: (n1 ++ ' ' :: (n2 ++ ' ' ::
      (n3 ++ ' ' :: (n4 ++ ' ' :: (n5 ++ ' ' :: (n6 ++ ' ' :: (n7 ++ ' ' ::
      (act ++ ' ' :: (st ++ rest)))))))))) =
      (ip1 ++ ' ' :: (ip2 ++ ' ' :: (n1 ++ ' ' :: (n2 ++ ' ' ::
      (n3 ++ ' ' :: (n4 ++ ' ' :: (n5 ++ ' ' :: (n6 ++ ' ' ::
      (n7 ++ [' ']))))))))) ++ (act ++ ' ' :: (st ++ rest)) := by
    simp [List.append_assoc]
  exact stableFor_ip_cons hact hst hship1 (fun u4 w4 h4 =>
    stableFor_ip_cons hact hst h4 (fun u5 w5 h5 =>
      stableFor_numTail 7 u5 w5 act st rest hact hst h5))
/-- C10: for every decoded line that the parser accepts, appending any
suffix of extra characters yields a line that the parser also accepts and
that parses to the identical captured field values: the match is anchored
at the start of the line but not at the end. -/
theorem c10_trailing_garbage_stable (line t : String) (caps : List String)
    (h : parserExec line = some caps) :
    parserExec (line ++ t) = some caps ∧
      parserAccepts (line ++ t) = true := by
  have hacc : parserAccepts line = true := by
    simp only [parserExec] at h
    simp only [parserAccepts]
    cases hrp : runPat parser line.toList with
    | nil =>
      rw [hrp] at h
      simp at h
    | cons a l =>
      rfl
  have hrel : RelaxedLine line := parserAccepts_iff_relaxedLine.mp hacc
  have hstab : StableFor parser line.toList :=
    stableFor_parser_of_relaxed hrel
  have hdl : (line ++ t).toList = line.toList ++ t.toList := rfl
  have hrun : runPat parser (line ++ t).toList =
      (runPat parser line.toList).map
        (fun cr => (cr.1, cr.2 ++ t.toList)) := by
    rw [hdl]
    exact runPat_append hstab
  refine ⟨?_, ?_⟩
  · simp only [parserExec] at h ⊢
    rw [hrun, List.head?_map]
    cases hh : (runPat parser line.toList).head? with
    | none =>
      rw [hh] at h
      simp at h
    | some cr0 =>
      rw [hh] at h
      simp only [Option.map_some'] at h ⊢
      exact h
  · simp only [parserAccepts]
    rw [hrun]
    cases hrp : runPat parser line.toList with
    | nil =>
      exfalso
      simp only [parserExec, hrp] at h
      simp at h
    | cons a l =>
      rfl
theorem c10_trailing_garbage_stable_witness :
    parserExec "1 23 eni-a 1.2.3.4 5.6.7.8 9 10 11 12 13 14 15 ACCEPT OK" =
      some ["1", "23", "eni-a", "1.2.3.4", "5.6.7.8", "9", "10", "11",
        "12", "13", "14", "15", "ACCEPT", "OK"] ∧
    (parserExec
        ("1 23 eni-a 1.2.3.4 5.6.7.8 9 10 11 12 13 14 15 ACCEPT OK" ++
          " extra trailing garbage !!") =
      some ["1", "23", "eni-a", "1.2.3.4", "5.6.7.8", "9", "10", "11",
        "12", "13", "14", "15", "ACCEPT", "OK"] ∧
    parserAccepts
        ("1 23 eni-a 1.2.3.4 5.6.7.8 9 10 11 12 13 14 15 ACCEPT OK" ++
          " extra trailing garbage !!") = true) :=
  ⟨rfl, c10_trailing_garbage_stable
    "1 23 eni-a 1.2.3.4 5.6.7.8 9 10 11 12 13 14 15 ACCEPT OK"
    " extra trailing garbage !!"
    ["1", "23", "eni-a", "1.2.3.4", "5.6.7.8", "9", "10", "11", "12",
      "13", "14", "15", "ACCEPT", "OK"] rfl⟩
